import Mathlib

/-!
# buildergen: builder generator for Go struct types

A shallow embedding of `generator/generator.go`.

* The syntax tree handed over by `go/parser` is an inductive type (`Expr`, `Field`,
  `Spec`, `Decl`, `File`); every node kind that `getFieldTypeString` does not
  recognise is the constructor `Expr.otherExpr`.
* The `Generator` struct is a Lean structure; a method with a pointer receiver
  takes the generator and returns the updated one, a method with a value receiver
  works on its own copy and returns only its result.
* A dereference of a nil pointer ends the run: functions that can reach one return
  an `Option`, `none` being the run-time panic.
* A Go `error` result is an `Option GenError`, `none` being `nil`.
* A Go `map[string]string` is an association list with pairwise different keys;
  the order in which `range` visits a map is not fixed by the language, so it is
  an explicit argument (`order`) of the emitter.
* `cases.Title(language.English)` belongs to `golang.org/x/text`; the emitter takes
  it as the argument `caser`.
-/

namespace BuilderGen

/-! ## Library functions used by the generator -/

/-- `strings.Join(elems, sep)`. -/
def Join : List String → String → String
  | [], _ => ""
  | [a], _ => a
  | a :: b :: rest, sep => a ++ sep ++ Join (b :: rest) sep

/-- `strings.Contains(s, substr)`. -/
def Contains (s substr : String) : Bool :=
  decide (substr.data <:+: s.data)

/-- `strings.Trim(s, cutset)`: `s` without its leading and trailing characters
that occur in `cutset`. -/
def Trim (s cutset : String) : String :=
  ⟨((s.data.dropWhile fun c => cutset.data.contains c).reverse.dropWhile
      fun c => cutset.data.contains c).reverse⟩

/-! ## Go maps -/

/-- A `map[string]string`: association list, keys pairwise different. -/
abbrev StrMap := List (String × String)

/-- The lookup `v, ok := m[k]`. -/
def mapLookup : StrMap → String → Option String
  | [], _ => none
  | (k', v) :: rest, k => if k' = k then some v else mapLookup rest k

/-- The assignment `m[k] = v`. -/
def mapStore : StrMap → String → String → StrMap
  | [], k, v => [(k, v)]
  | (k', v') :: rest, k, v =>
    if k' = k then (k, v) :: rest else (k', v') :: mapStore rest k v

/-! ## Syntax tree (`go/ast`) -/

mutual
/-- A type expression (`ast.Expr`). -/
inductive Expr where
  /-- `*ast.StarExpr`: pointer to `x`. -/
  | starExpr (x : Expr)
  /-- `*ast.SelectorExpr`: `x.sel`, where `sel` is the name of the identifier `Sel`. -/
  | selectorExpr (x : Expr) (sel : String)
  /-- `*ast.FuncType`: `params` is `Params.List`; `results` is `none` when the
  pointer `Results` is nil (a function without results), else `Results.List`. -/
  | funcType (params : List Field) (results : Option (List Field))
  /-- `*ast.Ident`. -/
  | ident (name : String)
  /-- `*ast.StructType` with `Fields.List`. -/
  | structType (fields : List Field)
  /-- Any other node kind: array, slice, map, channel, interface, ellipsis, ... -/
  | otherExpr
/-- A field declaration, parameter group or result group (`ast.Field`): the
names of its identifiers and its type. -/
inductive Field where
  | mk (names : List String) (type : Expr)
end

/-- Names of a field (`Field.Names`, each identifier by its `Name`). -/
def Field.names : Field → List String
  | .mk names _ => names

/-- Type of a field (`Field.Type`). -/
def Field.type : Field → Expr
  | .mk _ type => type

/-- An import (`ast.ImportSpec`): `Name` is `none` for a nil identifier, else
the name of the alias; `Path` is the literal as written, quotes included. -/
structure ImportSpec where
  Name : Option String
  Path : Option String

/-- One entry of a general declaration (`ast.Spec`). -/
inductive Spec where
  | importSpec (s : ImportSpec)
  | typeSpec (name : String) (type : Expr)
  | valueSpec

/-- Keyword of a general declaration (`GenDecl.Tok`). -/
inductive Token where
  | IMPORT
  | CONST
  | TYPE
  | VAR
  deriving DecidableEq

/-- `Token.String()`. -/
def Token.String : Token → String
  | .IMPORT => "import"
  | .CONST => "const"
  | .TYPE => "type"
  | .VAR => "var"

/-- A top-level declaration (`ast.Decl`). -/
inductive Decl where
  | genDecl (tok : Token) (specs : List Spec)
  | funcDecl
  | badDecl

/-- A parsed source file (`ast.File`): package name and declarations. -/
structure File where
  Name : String
  Decls : List Decl

/-! ## Errors -/

/-- The `error` values the generator returns. -/
inductive GenError where
  /-- An error of `parser.ParseFile`. -/
  | parseFailure (msg : String)
  /-- `errors.New("invalid input file: name of package is not specified")`. -/
  | noPackageName
  /-- `errors.New(g.TypeName + "is not a struct")`. -/
  | notAStruct (typeName : String)
  /-- `errors.New("type definition not found")`. -/
  | typeNotFound
  /-- `errors.New("empty structure type")`. -/
  | emptyStruct
  /-- An error of `os.OpenFile` or of `WriteString`. -/
  | sinkFailure (msg : String)
  deriving DecidableEq

/-- Message of an error (`err.Error()`). -/
def GenError.Error : GenError → String
  | .parseFailure msg => msg
  | .noPackageName => "invalid input file: name of package is not specified"
  | .notAStruct typeName => typeName ++ "is not a struct"
  | .typeNotFound => "type definition not found"
  | .emptyStruct => "empty structure type"
  | .sinkFailure msg => msg

/-! ## The generator -/

/-- The struct `Generator`. -/
structure Generator where
  SourceFile : String
  ParsedImports : StrMap
  NeededImports : List String
  Fields : StrMap
  TypeName : String
  OutputFileName : String
  PackageName : String
  Ast : Option File

/-- `NewGenerator`. -/
def NewGenerator (sourceFilePath typeName outputFileName : String) : Generator :=
  { ParsedImports := []
    NeededImports := []
    Fields := []
    TypeName := typeName
    OutputFileName := outputFileName
    SourceFile := sourceFilePath
    PackageName := ""
    Ast := none }

/-- `Generator.getFieldNames`: the loop appends each name in turn. -/
def getFieldNames (field : Field) : List String :=
  field.names.foldl (fun names name => names ++ [name]) []

/-- `Generator.getImport`. -/
def getImport (importSpec : ImportSpec) : String × String :=
  let name := ""
  let importString := ""
  let name := match importSpec.Name with
    | some n => n
    | none => name
  let importString := match importSpec.Path with
    | some p => p
    | none => importString
  let name := if name = "_" then "" else name
  (name, importString)

/-- Lines 240 and 249 to 260 of `formatFuncTypeString`: the text of a function
type from the items of its parameters and of its results. -/
def funcTypeText (paramsItems returnItems : List String) : String :=
  let paramsItemsString := Join paramsItems ", "
  let returnItemsString := Join returnItems ", "
  let returnItemsString :=
    if returnItems.length > 1 || Contains returnItemsString " " then
      "(" ++ returnItemsString ++ ")"
    else returnItemsString
  Join ["func(", paramsItemsString, ")", returnItemsString] " "

mutual
/-- `Generator.getFieldTypeString`: the text of a type expression and the
generator afterwards (only `NeededImports` can differ). In the case of a
selector the call on `t.Sel`, an identifier, returns its name. In the case of a
function type the body is that of `formatFuncTypeString`, which has a value
receiver: it runs on a copy of the generator, so the caller keeps `g`. -/
def getFieldTypeString (g : Generator) : Expr → Option (String × Generator)
  | .starExpr x =>
    match getFieldTypeString g x with
    | none => none
    | some (s, g) => some ("*" ++ s, g)
  | .selectorExpr x sel =>
    match getFieldTypeString g x with
    | none => none
    | some (packageName, g) =>
      let identName := sel
      let g := { g with NeededImports := g.NeededImports ++ [packageName] }
      some (packageName ++ "." ++ identName, g)
  | .funcType params none =>
    match fieldItems g params with
    | none => none
    | some _ => none
  | .funcType params (some results) =>
    match fieldItems g params with
    | none => none
    | some (paramsItems, g1) =>
      match fieldItems g1 results with
      | none => none
      | some (returnItems, _) => some (funcTypeText paramsItems returnItems, g)
  | .ident name => some (name, g)
  | .structType _ => some ("", g)
  | .otherExpr => some ("", g)
/-- The two loops of `formatFuncTypeString` (lines 235 to 239 and 244 to 248):
one item `names joined by "," ++ " " ++ type text` per group. -/
def fieldItems (g : Generator) : List Field → Option (List String × Generator)
  | [] => some ([], g)
  | .mk names type :: rest =>
    match getFieldTypeString g type with
    | none => none
    | some (paramsType, g) =>
      match fieldItems g rest with
      | none => none
      | some (items, g) =>
        some ((Join (getFieldNames (.mk names type)) "," ++ " " ++ paramsType) :: items, g)
end

/-- `Generator.formatFuncTypeString` for the function type with parameters
`params` and results `results`; `none` is the nil dereference `t.Results.List`
of a function type without results. The receiver is a value: the changes made
to the copy are dropped. -/
def formatFuncTypeString (g : Generator) (params : List Field)
    (results : Option (List Field)) : Option String :=
  match fieldItems g params with
  | none => none
  | some (paramsItems, g1) =>
    match results with
    | none => none
    | some results =>
      match fieldItems g1 results with
      | none => none
      | some (returnItems, _) => some (funcTypeText paramsItems returnItems)

/-- `Generator.parseFieldData`. -/
def parseFieldData (g : Generator) (field : Field) : Option Generator :=
  match getFieldTypeString g field.type with
  | none => none
  | some (fieldType, g) =>
    let fieldNames := getFieldNames field
    some (fieldNames.foldl
      (fun g name => { g with Fields := mapStore g.Fields name fieldType }) g)

/-- Lines 171 to 173 of `parseAst`: the loop over the fields of the struct. -/
def parseFields (g : Generator) : List Field → Option Generator
  | [] => some g
  | field :: rest =>
    match parseFieldData g field with
    | none => none
    | some g => parseFields g rest

/-- Lines 150 to 157 of `parseAst`: one import is entered in `ParsedImports`. -/
def recordImport (g : Generator) (importSpec : ImportSpec) : Generator :=
  let (importName, importPath) := getImport importSpec
  let (importName, importPath) :=
    if importName = "" then (importPath, importPath)
    else (importName, importName ++ " " ++ importPath)
  let importName := Trim importName "\""
  { g with ParsedImports := mapStore g.ParsedImports importName importPath }

/-- Lines 147 to 159 of `parseAst`: the loop over the specs of an import
declaration; a spec that is no import spec is passed over. -/
def parseImportSpecs (g : Generator) : List Spec → Generator
  | [] => g
  | spec :: rest =>
    match spec with
    | .importSpec importSpec => parseImportSpecs (recordImport g importSpec) rest
    | .typeSpec _ _ => parseImportSpecs g rest
    | .valueSpec => parseImportSpecs g rest

/-- Where a loop of `parseAst` stands: the generator, the flag `defFound`, and
the error of a `return` that was executed (`none` while the loop goes on). -/
structure Scan where
  g : Generator
  defFound : Bool
  err : Option GenError

/-- Lines 163 to 175 of `parseAst`: the body of the loop over the specs of a
type declaration. -/
def parseTypeSpec (g : Generator) (defFound : Bool) : Spec → Option Scan
  | .typeSpec name type =>
    if name = g.TypeName then
      match type with
      | .structType fields =>
        match parseFields g fields with
        | none => none
        | some g => some ⟨g, true, none⟩
      | .starExpr _ => some ⟨g, true, some (.notAStruct g.TypeName)⟩
      | .selectorExpr _ _ => some ⟨g, true, some (.notAStruct g.TypeName)⟩
      | .funcType _ _ => some ⟨g, true, some (.notAStruct g.TypeName)⟩
      | .ident _ => some ⟨g, true, some (.notAStruct g.TypeName)⟩
      | .otherExpr => some ⟨g, true, some (.notAStruct g.TypeName)⟩
    else some ⟨g, defFound, none⟩
  | .importSpec _ => some ⟨g, defFound, none⟩
  | .valueSpec => some ⟨g, defFound, none⟩

/-- Lines 162 to 176 of `parseAst`: the loop over the specs of a type
declaration. -/
def parseTypeSpecs (g : Generator) (defFound : Bool) : List Spec → Option Scan
  | [] => some ⟨g, defFound, none⟩
  | spec :: rest =>
    match parseTypeSpec g defFound spec with
    | none => none
    | some ⟨g, defFound, some e⟩ => some ⟨g, defFound, some e⟩
    | some ⟨g, defFound, none⟩ => parseTypeSpecs g defFound rest

/-- Lines 144 to 178 of `parseAst`: the body of the loop over the declarations,
up to the test of `defFound`. -/
def parseDecl (g : Generator) (defFound : Bool) : Decl → Option Scan
  | .genDecl tok specs =>
    let g := if tok.String = "import" then parseImportSpecs g specs else g
    if tok.String = "type" then parseTypeSpecs g defFound specs
    else some ⟨g, defFound, none⟩
  | .funcDecl => some ⟨g, defFound, none⟩
  | .badDecl => some ⟨g, defFound, none⟩

/-- Lines 143 to 182 of `parseAst`: the loop over the declarations. -/
def parseDecls (g : Generator) (defFound : Bool) : List Decl → Option Scan
  | [] => some ⟨g, defFound, none⟩
  | decl :: rest =>
    match parseDecl g defFound decl with
    | none => none
    | some ⟨g, defFound, some e⟩ => some ⟨g, defFound, some e⟩
    | some ⟨g, defFound, none⟩ =>
      if defFound then some ⟨g, defFound, none⟩ else parseDecls g defFound rest

/-- `Generator.parseAst`: the generator afterwards and the error returned;
`none` when the run panics. -/
def parseAst (g : Generator) : Option (Generator × Option GenError) :=
  match g.Ast with
  | none => none
  | some ast =>
    let g := { g with PackageName := ast.Name }
    match parseDecls g false ast.Decls with
    | none => none
    | some ⟨g, _, some e⟩ => some (g, some e)
    | some ⟨g, defFound, none⟩ =>
      if !defFound then some (g, some .typeNotFound)
      else if g.Fields.length = 0 then some (g, some .emptyStruct)
      else some (g, none)

/-! ## The emitter -/

/-- The text added for one import (lines 61 and 62). -/
def importLine (importString : String) : String :=
  "import " ++ importString ++ "\n"

/-- Lines 60 to 63 of `generateOutput`: the body of the loop over
`NeededImports`. -/
def emitImport (g : Generator) (output fieldType : String) : String :=
  match mapLookup g.ParsedImports fieldType with
  | some importString => output ++ importLine importString
  | none => output

/-- The builder type and the constructor (lines 66 to 75). -/
def builderDecl (builderName typeName : String) : String :=
  "\ntype " ++ builderName ++ " struct \x7b\n\tinstance *" ++ typeName ++
  "\n\x7d\n\t\t\nfunc " ++ typeName ++ "Build() *" ++ builderName ++
  " \x7b\n\treturn &" ++ builderName ++ " \x7b\n\t\tinstance: &" ++ typeName ++
  "\x7b\x7d,\n\t\x7d\n\x7d"

/-- The name of the setter of a field: `caser.String(fieldName)`. -/
def setterName (caser : String → String) (fieldName : String) : String :=
  caser fieldName

/-- The setter of one field (lines 80 to 85). -/
def setterMethod (caser : String → String) (builderName : String)
    (field : String × String) : String :=
  "\nfunc (b *" ++ builderName ++ ") " ++ setterName caser field.1 ++ " (" ++ field.1 ++
  " " ++ field.2 ++ ") *" ++ builderName ++ " \x7b\n\tb.instance." ++ field.1 ++ " = " ++
  field.1 ++ "\n\treturn b\n\x7d\n"

/-- The accessor `P` (lines 88 to 92). -/
def accessorP (builderName typeName : String) : String :=
  "\nfunc (b *" ++ builderName ++ ") P() *" ++ typeName ++
  " \x7b\n\treturn b.instance\n\x7d\n\t"

/-- The accessor `V` (lines 94 to 98). -/
def accessorV (builderName typeName : String) : String :=
  "\nfunc (b *" ++ builderName ++ ") V() " ++ typeName ++
  " \x7b\n\treturn *b.instance\n\x7d\n"

/-- `order` is a possible order of `range g.Fields`: the entries of the map,
each once. -/
def RangeOrder (order : StrMap) (g : Generator) : Prop :=
  order.Perm g.Fields

/-- The text built by `Generator.generateOutput` (lines 55 to 98) when
`range g.Fields` visits the entries in the order `order`. -/
def generateOutput (caser : String → String) (order : StrMap) (g : Generator) : String :=
  let builderName := g.TypeName ++ "Builder"
  let output := "package " ++ g.PackageName ++ "\n\n"
  let output := g.NeededImports.foldl (emitImport g) output
  let output := output ++ builderDecl builderName g.TypeName
  let output := order.foldl
    (fun output field => output ++ setterMethod caser builderName field) output
  let output := output ++ accessorP builderName g.TypeName
  let output := output ++ accessorV builderName g.TypeName
  output

/-- The import clauses emitted by the loop of lines 59 to 64, in order: the
namespace `fieldType` of the iteration and the clause text `importString`. -/
def importClauses (g : Generator) : List (String × String) :=
  g.NeededImports.filterMap fun fieldType =>
    (mapLookup g.ParsedImports fieldType).map fun importString => (fieldType, importString)

/-- The setters emitted by the loop of lines 79 to 86, in order: method name,
parameter name, parameter type. -/
def setters (caser : String → String) (order : StrMap) : List (String × String × String) :=
  order.map fun field => (setterName caser field.1, field.1, field.2)

/-! ## The run: parser, emitter, output sink -/

/-- What one run gets from outside the generator: the parser, the title caser,
the order in which `range` visits a map during this run, the path functions and
the file system. -/
structure Env where
  /-- `parser.ParseFile(fset, path, nil, 0)`: the syntax tree or the error. -/
  ParseFile : String → Except String File
  /-- `cases.Title(language.English).String`. -/
  caser : String → String
  /-- The order in which `range` visits the entries of a map in this run. -/
  rangeOrder : StrMap → StrMap
  /-- `filepath.Dir`. -/
  Dir : String → String
  /-- `filepath.Join` of two elements. -/
  JoinPath : String → String → String
  /-- The error of `os.OpenFile(path, O_WRONLY|O_CREATE|O_TRUNC, 0666)`, if any. -/
  OpenFile : String → Option String
  /-- The error of `WriteString(output)` on the file at `path`, if any. -/
  WriteString : String → String → Option String

/-- The environment respects the language: `range` visits every entry once. -/
def Env.Valid (env : Env) : Prop :=
  ∀ m : StrMap, (env.rangeOrder m).Perm m

/-- A call that `save` makes to the file system. -/
inductive SinkOp where
  | mkdirAll (path : String)
  | openFile (path : String)
  | writeString (path : String) (output : String)
  deriving DecidableEq

/-- `Generator.getAst`. -/
def getAst (env : Env) (g : Generator) : Generator × Option GenError :=
  match env.ParseFile g.SourceFile with
  | .error msg => (g, some (.parseFailure msg))
  | .ok astf =>
    if astf.Name = "" then (g, some .noPackageName)
    else ({ g with Ast := some astf }, none)

/-- `Generator.save`: the error returned and the calls made to the file system.
The error of `MkdirAll` is overwritten before it is read. -/
def save (env : Env) (g : Generator) (output : String) : Option GenError × List SinkOp :=
  let packagePath := env.Dir g.SourceFile
  let outputFilePath := env.JoinPath packagePath g.OutputFileName
  match env.OpenFile outputFilePath with
  | some msg => (some (.sinkFailure msg), [.mkdirAll packagePath, .openFile outputFilePath])
  | none =>
    ((env.WriteString outputFilePath output).map .sinkFailure,
      [.mkdirAll packagePath, .openFile outputFilePath, .writeString outputFilePath output])

/-- `Generator.generateOutput` with its call of `save`. -/
def generateAndSave (env : Env) (g : Generator) : Option GenError × List SinkOp :=
  save env g (generateOutput env.caser (env.rangeOrder g.Fields) g)

/-- `Generator.Generate`: the generator afterwards, the error returned and the
calls made to the file system; `none` when the run panics. -/
def Generate (env : Env) (g : Generator) :
    Option (Generator × Option GenError × List SinkOp) :=
  match getAst env g with
  | (g, some err) => some (g, some err, [])
  | (g, none) =>
    match parseAst g with
    | none => none
    | some (g, some err) => some (g, some err, [])
    | some (g, none) =>
      let (err, ops) := generateAndSave env g
      some (g, err, ops)

/-- The text that `Generate` hands to `save`: `none` when the parser or the
analysis fails, or when the run panics. -/
def generatedText (env : Env) (g : Generator) : Option String :=
  match getAst env g with
  | (_, some _) => none
  | (g, none) =>
    match parseAst g with
    | none => none
    | some (_, some _) => none
    | some (g, none) => some (generateOutput env.caser (env.rangeOrder g.Fields) g)

/-! ## Notions used to state the properties -/

/-- The keys of a map, in the order of the association list. -/
def mapKeys (m : StrMap) : List String := m.map Prod.fst

/-- The assignments `m[name] = v` for each of `names` in turn. -/
def storeAll (m : StrMap) (names : List String) (v : String) : StrMap :=
  names.foldl (fun m name => mapStore m name v) m

/-- All names of a list of field declarations, in source order. -/
def fieldNames : List Field → List String
  | [] => []
  | field :: rest => field.names ++ fieldNames rest

/-- The namespace of a qualified type `ns.T`, also behind pointers (`*ns.T`). -/
def qualifierOf : Expr → Option String
  | .starExpr x => qualifierOf x
  | .selectorExpr (.ident ns) _ => some ns
  | _ => none

/-- The head of a type is as `go/parser` builds it: the operand of a selector
is an identifier (the parser reads a qualified type name as `ident.ident`). -/
def HeadOk : Expr → Bool
  | .starExpr x => HeadOk x
  | .selectorExpr (.ident _) _ => true
  | .selectorExpr _ _ => false
  | _ => true

/-- The type is a function type, possibly behind pointers or as the operand
of a selector: the only shapes on which `getFieldTypeString` calls
`formatFuncTypeString`. -/
def reachesFuncType : Expr → Bool
  | .starExpr x => reachesFuncType x
  | .selectorExpr x _ => reachesFuncType x
  | .funcType _ _ => true
  | _ => false

/-- The types of the specs named `name` in the specs of a type declaration. -/
def namedTypeSpecs (name : String) : List Spec → List Expr
  | [] => []
  | .typeSpec n type :: rest =>
    if n = name then type :: namedTypeSpecs name rest else namedTypeSpecs name rest
  | _ :: rest => namedTypeSpecs name rest

/-- The types of all top-level type declarations named `name`, in file order. -/
def namedTypes (name : String) : List Decl → List Expr
  | [] => []
  | .genDecl tok specs :: rest =>
    (if tok = .TYPE then namedTypeSpecs name specs else []) ++ namedTypes name rest
  | _ :: rest => namedTypes name rest

/-- The type expression is a struct type. -/
def Expr.isStruct : Expr → Bool
  | .structType _ => true
  | _ => false

/-- What the import loops leave alone: the type name, the referenced
namespaces, the fields and the package name. -/
def SameAnalysis (g g' : Generator) : Prop :=
  g'.TypeName = g.TypeName ∧ g'.NeededImports = g.NeededImports ∧ g'.Fields = g.Fields ∧
  g'.PackageName = g.PackageName

mutual
/-- The reconstruction of the type reaches no function type without results:
the condition under which `getFieldTypeString` returns. -/
def reconstructs : Expr → Bool
  | .starExpr x => reconstructs x
  | .selectorExpr x _ => reconstructs x
  | .funcType _ none => false
  | .funcType params (some results) => fieldsReconstruct params && fieldsReconstruct results
  | .ident _ => true
  | .structType _ => true
  | .otherExpr => true
/-- The types of all the groups reconstruct. -/
def fieldsReconstruct : List Field → Bool
  | [] => true
  | .mk _ type :: rest => reconstructs type && fieldsReconstruct rest
end

/-- The node kind is one of those `getFieldTypeString` has a case for: pointer,
qualified identifier, function type, plain identifier. -/
def Expr.recognised : Expr → Bool
  | .starExpr _ => true
  | .selectorExpr _ _ => true
  | .funcType _ _ => true
  | .ident _ => true
  | .structType _ => false
  | .otherExpr => false

/-- The import specs among the specs of a declaration, in order. -/
def importSpecsIn : List Spec → List ImportSpec
  | [] => []
  | .importSpec s :: rest => s :: importSpecsIn rest
  | .typeSpec _ _ :: rest => importSpecsIn rest
  | .valueSpec :: rest => importSpecsIn rest

/-- The imports of one declaration: the import specs of an import declaration. -/
def declImports : Decl → List ImportSpec
  | .genDecl tok specs => if tok = .IMPORT then importSpecsIn specs else []
  | .funcDecl => []
  | .badDecl => []

/-- The imports of the file that stand before the first declaration of the
type `name`, in file order (in a Go file the imports come first, so these are
all its imports). -/
def importsBefore (name : String) : List Decl → List ImportSpec
  | [] => []
  | decl :: rest =>
    if (namedTypes name [decl]).isEmpty then declImports decl ++ importsBefore name rest
    else []

/-- The alias of an import when it has an explicit one: a name other than the
empty name and the blank name `_`. -/
def explicitAlias (spec : ImportSpec) : Option String :=
  match spec.Name with
  | some a => if a = "" ∨ a = "_" then none else some a
  | none => none

/-- The key of an import in the import table: the explicit alias, or else the
text of the path literal; in both cases without leading and trailing `"`. -/
def importKey (spec : ImportSpec) : String :=
  match explicitAlias spec with
  | some a => Trim a "\""
  | none => Trim (spec.Path.getD "") "\""

/-- The clause text of an import in the import table: `alias path` for an
explicit alias, or else the bare path literal. -/
def importClause (spec : ImportSpec) : String :=
  match explicitAlias spec with
  | some a => a ++ " " ++ spec.Path.getD ""
  | none => spec.Path.getD ""

/-- The import table that holds the imports `imports`, entered in order: a
later import with the key of an earlier one takes its place. -/
def tableOf (imports : List ImportSpec) : StrMap :=
  imports.foldl (fun m spec => mapStore m (importKey spec) (importClause spec)) []

/-- The reconstructed text of a type (the empty text where the reconstruction
does not return). -/
def typeText (e : Expr) : String :=
  ((getFieldTypeString (NewGenerator "" "" "") e).map Prod.fst).getD ""

/-- The fields of a struct: every name of every declaration, in source order,
with the reconstructed text of the declared type. -/
def fieldPairs : List Field → StrMap
  | [] => []
  | field :: rest => field.names.map (fun name => (name, typeText field.type)) ++ fieldPairs rest

/-- The namespaces of the field declarations with a qualified type `ns.T`
(directly or behind pointers), one for each such declaration, in source order. -/
def referenced (fields : List Field) : List String :=
  fields.filterMap fun field => qualifierOf field.type

/-! ## Inputs used in the examples -/

/-- Modelled from the spec: `cases.Title(language.English).String` of
`golang.org/x/text`, whose source is not part of the repository; the spec has
it capitalize the first letter of the field name. This stand-in capitalizes a
first ASCII letter and leaves the rest of the name as it is; it is applied only
to the field names of the examples (lower-case ASCII words, and `Foo`), on
which it agrees with the library. -/
def titleCaser (s : String) : String :=
  match s.data with
  | [] => ""
  | c :: cs => ⟨c.toUpper :: cs⟩

/-- The generator as `Generate` hands it to `parseAst`: a new generator for the
type `typeName` with the syntax tree of the source file. -/
def analysisOf (file : File) (typeName : String) : Generator :=
  { NewGenerator "user.go" typeName "builder.go" with Ast := some file }

/-- An environment in which the parser returns `file` and the file system
accepts every call; `range` visits a map in the order of the association list. -/
def envOf (file : File) : Env :=
  { ParseFile := fun _ => .ok file
    caser := titleCaser
    rangeOrder := fun m => m
    Dir := fun _ => "."
    JoinPath := fun dir name => dir ++ "/" ++ name
    OpenFile := fun _ => none
    WriteString := fun _ _ => none }

/-- The source file
`package user; import "net/http"; type User struct { client http.Client }`. -/
def fileNetHttp : File :=
  ⟨"user",
   [.genDecl .IMPORT [.importSpec ⟨none, some "\"net/http\""⟩],
    .genDecl .TYPE [.typeSpec "User" (.structType
      [.mk ["client"] (.selectorExpr (.ident "http") "Client")])]]⟩

/-- The fields `start time.Time` and `stop *time.Time`. -/
def fieldsTime : List Field :=
  [.mk ["start"] (.selectorExpr (.ident "time") "Time"),
   .mk ["stop"] (.starExpr (.selectorExpr (.ident "time") "Time"))]

/-- The source file
`package event; import "time"; type Event struct { start time.Time; stop *time.Time }`. -/
def fileTime : File :=
  ⟨"event",
   [.genDecl .IMPORT [.importSpec ⟨none, some "\"time\""⟩],
    .genDecl .TYPE [.typeSpec "Event" (.structType fieldsTime)]]⟩

/-- The source file `package p; import _ "foo"; type T struct { x foo.T }`. -/
def fileBlank : File :=
  ⟨"p",
   [.genDecl .IMPORT [.importSpec ⟨some "_", some "\"foo\""⟩],
    .genDecl .TYPE [.typeSpec "T" (.structType
      [.mk ["x"] (.selectorExpr (.ident "foo") "T")])]]⟩

/-- The fields `foo int` and `Foo int`. -/
def fieldsCase : List Field :=
  [.mk ["foo"] (.ident "int"), .mk ["Foo"] (.ident "int")]

/-- The source file `package p; type Pair struct { foo int; Foo int }`. -/
def fileCase : File :=
  ⟨"p", [.genDecl .TYPE [.typeSpec "Pair" (.structType fieldsCase)]]⟩

/-- The source file `package p; type ID int`. -/
def fileNotStruct : File :=
  ⟨"p", [.genDecl .TYPE [.typeSpec "ID" (.ident "int")]]⟩

/-- The fields of `struct { Base; *Mixin }`: two embedded fields. -/
def fieldsEmbedded : List Field :=
  [.mk [] (.ident "Base"), .mk [] (.starExpr (.ident "Mixin"))]

/-- The source file `package p; type Wrapper struct { Base; *Mixin }`. -/
def fileEmbedded : File :=
  ⟨"p", [.genDecl .TYPE [.typeSpec "Wrapper" (.structType fieldsEmbedded)]]⟩

/-- The environment `envOf file` of a run in which `range` visits a map in the
reverse order of the association list. -/
def envReversed (file : File) : Env :=
  { envOf file with rangeOrder := fun m => m.reverse }

/-- The field `handler func(c http.Client) error`. -/
def fieldHandler : Field :=
  .mk ["handler"] (.funcType [.mk ["c"] (.selectorExpr (.ident "http") "Client")]
    (some [.mk [] (.ident "error")]))

/-- The field `client http.Client`. -/
def fieldClient : Field :=
  .mk ["client"] (.selectorExpr (.ident "http") "Client")

/-- The source file `package p; type Server struct { onClose func() }`. -/
def fileCallback : File :=
  ⟨"p", [.genDecl .TYPE [.typeSpec "Server" (.structType
    [.mk ["onClose"] (.funcType [] none)])]]⟩

/-- The parameter groups `a, b int` and `c http.Client`. -/
def paramsMixed : List Field :=
  [.mk ["a", "b"] (.ident "int"), .mk ["c"] (.selectorExpr (.ident "http") "Client")]

/-- The fields `a, b time.Time` and `c *time.Time`: two declarations, three
fields. -/
def fieldsGrouped : List Field :=
  [.mk ["a", "b"] (.selectorExpr (.ident "time") "Time"),
   .mk ["c"] (.starExpr (.selectorExpr (.ident "time") "Time"))]

/-- The source file
`package span; import "time"; type Span struct { a, b time.Time; c *time.Time }`. -/
def fileGrouped : File :=
  ⟨"span",
   [.genDecl .IMPORT [.importSpec ⟨none, some "\"time\""⟩],
    .genDecl .TYPE [.typeSpec "Span" (.structType fieldsGrouped)]]⟩

/-- The source file `package logx; type Log struct { out *os.File }` that imports
`os` with a raw string literal: the import path is written between
backquotes. -/
def fileRawImport : File :=
  ⟨"logx",
   [.genDecl .IMPORT [.importSpec ⟨none, some "`os`"⟩],
    .genDecl .TYPE [.typeSpec "Log" (.structType
      [.mk ["out"] (.starExpr (.selectorExpr (.ident "os") "File"))])]]⟩

/-- The source file
`package p; import ( str "strings"; "net/http"; _ "embed" ); type T struct { x int }`. -/
def fileThreeImports : File :=
  ⟨"p",
   [.genDecl .IMPORT [.importSpec ⟨some "str", some "\"strings\""⟩,
      .importSpec ⟨none, some "\"net/http\""⟩, .importSpec ⟨some "_", some "\"embed\""⟩],
    .genDecl .TYPE [.typeSpec "T" (.structType [.mk ["x"] (.ident "int")])]]⟩

/-- The source file
`package p; import . "fmt"; import . "strings"; type T struct { x int }`. -/
def fileDotImports : File :=
  ⟨"p",
   [.genDecl .IMPORT [.importSpec ⟨some ".", some "\"fmt\""⟩],
    .genDecl .IMPORT [.importSpec ⟨some ".", some "\"strings\""⟩],
    .genDecl .TYPE [.typeSpec "T" (.structType [.mk ["x"] (.ident "int")])]]⟩

/-! ## Lemmas -/


theorem getFieldNames_eq (field : Field) : getFieldNames field = field.names := by
  have key : ∀ (l acc : List String),
      l.foldl (fun names name => names ++ [name]) acc = acc ++ l := by
    intro l
    induction l with
    | nil => intro acc; simp
    | cons a l ih => intro acc; simp [ih]
  simpa [getFieldNames] using key field.names []

theorem mapKeys_mapStore (m : StrMap) (k v : String) :
    mapKeys (mapStore m k v) = if k ∈ mapKeys m then mapKeys m else mapKeys m ++ [k] := by
  induction m with
  | nil => simp [mapStore, mapKeys]
  | cons p m ih =>
    obtain ⟨k', v'⟩ := p
    unfold mapKeys at ih ⊢
    by_cases hk : k' = k
    · simp [mapStore, hk]
    · have hk' : ¬ k = k' := fun h => hk h.symm
      simp only [mapStore, hk, if_false, List.map_cons, ih, List.mem_cons, hk', false_or]
      split <;> simp

theorem mapStore_ne_nil (m : StrMap) (k v : String) : mapStore m k v ≠ [] := by
  cases m with
  | nil => simp [mapStore]
  | cons p m =>
    obtain ⟨k', v'⟩ := p
    simp only [mapStore]
    split <;> simp

theorem mapLookup_mapStore (m : StrMap) (k v k' : String) :
    mapLookup (mapStore m k v) k' = if k' = k then some v else mapLookup m k' := by
  induction m with
  | nil =>
    by_cases h : k' = k
    · simp [mapStore, mapLookup, h]
    · have h' : ¬ k = k' := fun e => h e.symm
      simp [mapStore, mapLookup, h, h']
  | cons p m ih =>
    obtain ⟨k0, v0⟩ := p
    by_cases h0 : k0 = k
    · subst h0
      by_cases h : k' = k0
      · simp [mapStore, mapLookup, h]
      · have h' : ¬ k0 = k' := fun e => h e.symm
        simp [mapStore, mapLookup, h, h']
    · simp only [mapStore, h0, if_false, mapLookup, ih]
      by_cases h : k' = k
      · subst h; simp [h0]
      · simp [h]

theorem storeAll_nil (m : StrMap) (v : String) : storeAll m [] v = m := rfl

theorem storeAll_cons (m : StrMap) (n : String) (names : List String) (v : String) :
    storeAll m (n :: names) v = storeAll (mapStore m n v) names v := rfl

theorem storeAll_eq_nil (m : StrMap) (names : List String) (v : String) :
    storeAll m names v = [] ↔ m = [] ∧ names = [] := by
  induction names generalizing m with
  | nil => simp [storeAll_nil]
  | cons n names ih =>
    rw [storeAll_cons, ih]
    simp [mapStore_ne_nil]

theorem mapKeys_storeAll (m : StrMap) (names : List String) (v : String)
    (h : (mapKeys m ++ names).Nodup) : mapKeys (storeAll m names v) = mapKeys m ++ names := by
  induction names generalizing m with
  | nil => simp [storeAll_nil]
  | cons n names ih =>
    have hn : n ∉ mapKeys m := by
      intro hmem
      have := List.nodup_append.1 h
      exact this.2.2 hmem (List.mem_cons_self _ _)
    have hk : mapKeys (mapStore m n v) = mapKeys m ++ [n] := by
      rw [mapKeys_mapStore, if_neg hn]
    rw [storeAll_cons, ih, hk]
    · simp
    · rw [hk]; simpa using h

theorem foldl_store_fields (names : List String) (v : String) (g : Generator) :
    names.foldl (fun g name => { g with Fields := mapStore g.Fields name v }) g =
      { g with Fields := storeAll g.Fields names v } := by
  induction names generalizing g with
  | nil => rfl
  | cons n names ih => rw [List.foldl_cons, ih]; rfl

theorem parseFieldData_eq (g : Generator) (field : Field) :
    parseFieldData g field =
      (getFieldTypeString g field.type).map fun p =>
        { p.2 with Fields := storeAll p.2.Fields field.names p.1 } := by
  unfold parseFieldData
  cases getFieldTypeString g field.type with
  | none => rfl
  | some p =>
    obtain ⟨s, g1⟩ := p
    simp only [Option.map_some', getFieldNames_eq, foldl_store_fields]

theorem getFieldTypeString_funcType (g : Generator) (params : List Field)
    (results : Option (List Field)) :
    getFieldTypeString g (.funcType params results) =
      (formatFuncTypeString g params results).map fun s => (s, g) := by
  cases results with
  | none =>
    rw [getFieldTypeString, formatFuncTypeString]
    cases fieldItems g params <;> rfl
  | some rs =>
    rw [getFieldTypeString, formatFuncTypeString]
    cases h : fieldItems g params with
    | none => rfl
    | some p =>
      obtain ⟨items, g1⟩ := p
      simp only
      cases h2 : fieldItems g1 rs with
      | none => rfl
      | some q => rfl

theorem getFieldTypeString_needed : ∀ (e : Expr) (g : Generator) (s : String) (g' : Generator),
    HeadOk e = true → getFieldTypeString g e = some (s, g') →
      g' = { g with NeededImports := g.NeededImports ++ (qualifierOf e).toList }
  | .starExpr x, g, s, g', hw, h => by
    rw [getFieldTypeString] at h
    cases hx : getFieldTypeString g x with
    | none => simp [hx] at h
    | some p =>
      obtain ⟨s1, g1⟩ := p
      simp only [hx, Option.some.injEq, Prod.mk.injEq] at h
      have ih := getFieldTypeString_needed x g s1 g1 (by simpa [HeadOk] using hw) hx
      rw [← h.2, ih, qualifierOf]
  | .selectorExpr (.ident ns) sel, g, s, g', _, h => by
    simp only [getFieldTypeString, Option.some.injEq, Prod.mk.injEq] at h
    rw [← h.2]; rfl
  | .selectorExpr (.starExpr _) _, _, _, _, hw, _ => by simp [HeadOk] at hw
  | .selectorExpr (.selectorExpr _ _) _, _, _, _, hw, _ => by simp [HeadOk] at hw
  | .selectorExpr (.funcType _ _) _, _, _, _, hw, _ => by simp [HeadOk] at hw
  | .selectorExpr (.structType _) _, _, _, _, hw, _ => by simp [HeadOk] at hw
  | .selectorExpr .otherExpr _, _, _, _, hw, _ => by simp [HeadOk] at hw
  | .funcType ps rs, g, s, g', _, h => by
    rw [getFieldTypeString_funcType] at h
    cases hf : formatFuncTypeString g ps rs with
    | none => simp [hf] at h
    | some t =>
      simp only [hf, Option.map_some', Option.some.injEq, Prod.mk.injEq] at h
      rw [← h.2]; simp [qualifierOf]
  | .ident n, g, s, g', _, h => by
    simp only [getFieldTypeString, Option.some.injEq, Prod.mk.injEq] at h
    rw [← h.2]; simp [qualifierOf]
  | .structType _, g, s, g', _, h => by
    simp only [getFieldTypeString, Option.some.injEq, Prod.mk.injEq] at h
    rw [← h.2]; simp [qualifierOf]
  | .otherExpr, g, s, g', _, h => by
    simp only [getFieldTypeString, Option.some.injEq, Prod.mk.injEq] at h
    rw [← h.2]; simp [qualifierOf]

theorem getFieldTypeString_frame : ∀ (e : Expr) (g : Generator) (s : String) (g' : Generator),
    getFieldTypeString g e = some (s, g') →
      ∃ l, g' = { g with NeededImports := g.NeededImports ++ l }
  | .starExpr x, g, s, g', h => by
    rw [getFieldTypeString] at h
    cases hx : getFieldTypeString g x with
    | none => simp [hx] at h
    | some p =>
      obtain ⟨s1, g1⟩ := p
      simp only [hx, Option.some.injEq, Prod.mk.injEq] at h
      obtain ⟨l, hl⟩ := getFieldTypeString_frame x g s1 g1 hx
      exact ⟨l, by rw [← h.2, hl]⟩
  | .selectorExpr x sel, g, s, g', h => by
    rw [getFieldTypeString] at h
    cases hx : getFieldTypeString g x with
    | none => simp [hx] at h
    | some p =>
      obtain ⟨s1, g1⟩ := p
      simp only [hx, Option.some.injEq, Prod.mk.injEq] at h
      obtain ⟨l, hl⟩ := getFieldTypeString_frame x g s1 g1 hx
      refine ⟨l ++ [s1], ?_⟩
      rw [← h.2, hl]
      simp
  | .funcType ps rs, g, s, g', h => by
    rw [getFieldTypeString_funcType] at h
    cases hf : formatFuncTypeString g ps rs with
    | none => simp [hf] at h
    | some t =>
      simp only [hf, Option.map_some', Option.some.injEq, Prod.mk.injEq] at h
      exact ⟨[], by rw [← h.2]; simp⟩
  | .ident n, g, s, g', h => by
    simp only [getFieldTypeString, Option.some.injEq, Prod.mk.injEq] at h
    exact ⟨[], by rw [← h.2]; simp⟩
  | .structType _, g, s, g', h => by
    simp only [getFieldTypeString, Option.some.injEq, Prod.mk.injEq] at h
    exact ⟨[], by rw [← h.2]; simp⟩
  | .otherExpr, g, s, g', h => by
    simp only [getFieldTypeString, Option.some.injEq, Prod.mk.injEq] at h
    exact ⟨[], by rw [← h.2]; simp⟩

theorem qualifierOf_headOk : ∀ (e : Expr) (ns : String), qualifierOf e = some ns → HeadOk e = true
  | .starExpr x, ns, h => by
    rw [qualifierOf] at h; rw [HeadOk]; exact qualifierOf_headOk x ns h
  | .selectorExpr (.ident _) _, _, _ => rfl
  | .selectorExpr (.starExpr _) _, _, h => by simp [qualifierOf] at h
  | .selectorExpr (.selectorExpr _ _) _, _, h => by simp [qualifierOf] at h
  | .selectorExpr (.funcType _ _) _, _, h => by simp [qualifierOf] at h
  | .selectorExpr (.structType _) _, _, h => by simp [qualifierOf] at h
  | .selectorExpr .otherExpr _, _, h => by simp [qualifierOf] at h
  | .funcType _ _, _, h => by simp [qualifierOf] at h
  | .ident _, _, h => by simp [qualifierOf] at h
  | .structType _, _, h => by simp [qualifierOf] at h
  | .otherExpr, _, h => by simp [qualifierOf] at h

theorem parseFieldData_some (g : Generator) (field : Field) (g' : Generator)
    (h : parseFieldData g field = some g') :
    ∃ s l, g' = { g with NeededImports := g.NeededImports ++ l,
                         Fields := storeAll g.Fields field.names s } := by
  rw [parseFieldData_eq] at h
  cases hx : getFieldTypeString g field.type with
  | none => simp [hx] at h
  | some p =>
    obtain ⟨s, g1⟩ := p
    obtain ⟨l, hl⟩ := getFieldTypeString_frame _ _ _ _ hx
    simp only [hx, Option.map_some', Option.some.injEq] at h
    exact ⟨s, l, by rw [← h, hl]⟩

theorem parseFieldData_needed (g : Generator) (field : Field) (g' : Generator)
    (hw : HeadOk field.type = true) (h : parseFieldData g field = some g') :
    g'.NeededImports = g.NeededImports ++ (qualifierOf field.type).toList := by
  rw [parseFieldData_eq] at h
  cases hx : getFieldTypeString g field.type with
  | none => simp [hx] at h
  | some p =>
    obtain ⟨s, g1⟩ := p
    have hl := getFieldTypeString_needed _ _ _ _ hw hx
    simp only [hx, Option.map_some', Option.some.injEq] at h
    rw [← h, hl]

theorem getFieldTypeString_total : ∀ (e : Expr) (g : Generator),
    reachesFuncType e = false → ∃ p, getFieldTypeString g e = some p
  | .starExpr x, g, he => by
    obtain ⟨p, hp⟩ := getFieldTypeString_total x g (by simpa [reachesFuncType] using he)
    exact ⟨_, by rw [getFieldTypeString, hp]⟩
  | .selectorExpr x sel, g, he => by
    obtain ⟨p, hp⟩ := getFieldTypeString_total x g (by simpa [reachesFuncType] using he)
    exact ⟨_, by rw [getFieldTypeString, hp]⟩
  | .funcType _ _, _, he => by simp [reachesFuncType] at he
  | .ident _, g, _ => ⟨_, by rw [getFieldTypeString]⟩
  | .structType _, g, _ => ⟨_, by rw [getFieldTypeString]⟩
  | .otherExpr, g, _ => ⟨_, by rw [getFieldTypeString]⟩

theorem parseFieldData_total (g : Generator) (field : Field)
    (hf : reachesFuncType field.type = false) : ∃ g', parseFieldData g field = some g' := by
  obtain ⟨p, hp⟩ := getFieldTypeString_total field.type g hf
  exact ⟨_, by rw [parseFieldData_eq, hp]; rfl⟩

/-! ### The loop over the fields -/

theorem parseFields_some (fields : List Field) : ∀ (g g' : Generator),
    parseFields g fields = some g' →
      g'.TypeName = g.TypeName ∧ g'.ParsedImports = g.ParsedImports ∧
      g'.PackageName = g.PackageName ∧ g'.Ast = g.Ast ∧
      g'.SourceFile = g.SourceFile ∧ g'.OutputFileName = g.OutputFileName ∧
      (∃ l, g'.NeededImports = g.NeededImports ++ l) := by
  induction fields with
  | nil =>
    intro g g' h
    simp only [parseFields, Option.some.injEq] at h
    subst h
    exact ⟨rfl, rfl, rfl, rfl, rfl, rfl, [], by simp⟩
  | cons f rest ih =>
    intro g g' h
    rw [parseFields] at h
    cases hf : parseFieldData g f with
    | none => simp [hf] at h
    | some g1 =>
      simp only [hf] at h
      obtain ⟨s, l, hg1⟩ := parseFieldData_some g f g1 hf
      obtain ⟨h1, h2, h3, h4, h5, h6, l2, h7⟩ := ih g1 g' h
      subst hg1
      exact ⟨h1, h2, h3, h4, h5, h6, l ++ l2, by rw [h7]; simp⟩

theorem parseFields_fields_nil (fields : List Field) : ∀ (g g' : Generator),
    parseFields g fields = some g' →
      (g'.Fields = [] ↔ g.Fields = [] ∧ fieldNames fields = []) := by
  induction fields with
  | nil =>
    intro g g' h
    simp only [parseFields, Option.some.injEq] at h
    subst h
    simp [fieldNames]
  | cons f rest ih =>
    intro g g' h
    rw [parseFields] at h
    cases hf : parseFieldData g f with
    | none => simp [hf] at h
    | some g1 =>
      simp only [hf] at h
      obtain ⟨s, l, hg1⟩ := parseFieldData_some g f g1 hf
      rw [ih g1 g' h, hg1]
      simp only [storeAll_eq_nil, fieldNames, List.append_eq_nil]
      tauto

theorem parseFields_keys (fields : List Field) : ∀ (g g' : Generator),
    parseFields g fields = some g' → (mapKeys g.Fields ++ fieldNames fields).Nodup →
      mapKeys g'.Fields = mapKeys g.Fields ++ fieldNames fields := by
  induction fields with
  | nil =>
    intro g g' h _
    simp only [parseFields, Option.some.injEq] at h
    subst h
    simp [fieldNames]
  | cons f rest ih =>
    intro g g' h hnd
    rw [parseFields] at h
    cases hf : parseFieldData g f with
    | none => simp [hf] at h
    | some g1 =>
      simp only [hf] at h
      obtain ⟨s, l, hg1⟩ := parseFieldData_some g f g1 hf
      have hnd' : (mapKeys g.Fields ++ f.names ++ fieldNames rest).Nodup := by
        simpa [fieldNames, List.append_assoc] using hnd
      have hk : mapKeys g1.Fields = mapKeys g.Fields ++ f.names := by
        rw [hg1]
        exact mapKeys_storeAll _ _ _ (List.Nodup.of_append_left hnd')
      rw [ih g1 g' h (by rw [hk]; exact hnd'), hk]
      simp [fieldNames]

theorem parseFields_needed (fields : List Field) : ∀ (g g' : Generator),
    (∀ f ∈ fields, HeadOk f.type = true) → parseFields g fields = some g' →
      g'.NeededImports =
        g.NeededImports ++ fields.filterMap fun f => qualifierOf f.type := by
  induction fields with
  | nil =>
    intro g g' _ h
    simp only [parseFields, Option.some.injEq] at h
    subst h
    simp
  | cons f rest ih =>
    intro g g' hw h
    rw [parseFields] at h
    cases hf : parseFieldData g f with
    | none => simp [hf] at h
    | some g1 =>
      simp only [hf] at h
      have h1 := parseFieldData_needed g f g1 (hw f (List.mem_cons_self _ _)) hf
      rw [ih g1 g' (fun x hx => hw x (List.mem_cons_of_mem _ hx)) h, h1]
      cases hq : qualifierOf f.type <;> simp [List.filterMap_cons, hq]

theorem parseFields_needed_mem (fields : List Field) : ∀ (g g' : Generator),
    parseFields g fields = some g' → ∀ f ∈ fields, ∀ ns, qualifierOf f.type = some ns →
      ns ∈ g'.NeededImports := by
  induction fields with
  | nil => intro g g' _ f hf; simp at hf
  | cons f0 rest ih =>
    intro g g' h f hf ns hq
    rw [parseFields] at h
    cases hf0 : parseFieldData g f0 with
    | none => simp [hf0] at h
    | some g1 =>
      simp only [hf0] at h
      rcases List.mem_cons.1 hf with rfl | hmem
      · have h1 := parseFieldData_needed g f g1 (qualifierOf_headOk _ _ hq) hf0
        obtain ⟨_, _, _, _, _, _, l, hl⟩ := parseFields_some rest g1 g' h
        rw [hl, h1, hq]
        simp
      · exact ih g1 g' h f hmem ns hq

theorem parseFields_total (fields : List Field) : ∀ (g : Generator),
    (∀ f ∈ fields, reachesFuncType f.type = false) → ∃ g', parseFields g fields = some g' := by
  induction fields with
  | nil => intro g _; exact ⟨g, rfl⟩
  | cons f rest ih =>
    intro g hok
    obtain ⟨g1, h1⟩ := parseFieldData_total g f (hok f (List.mem_cons_self _ _))
    obtain ⟨g', h'⟩ := ih g1 fun x hx => hok x (List.mem_cons_of_mem _ hx)
    exact ⟨g', by rw [parseFields, h1]; exact h'⟩

theorem SameAnalysis.refl (g : Generator) : SameAnalysis g g := ⟨rfl, rfl, rfl, rfl⟩

theorem SameAnalysis.trans {a b c : Generator} (h1 : SameAnalysis a b) (h2 : SameAnalysis b c) :
    SameAnalysis a c :=
  ⟨h2.1.trans h1.1, h2.2.1.trans h1.2.1, h2.2.2.1.trans h1.2.2.1, h2.2.2.2.trans h1.2.2.2⟩

/-! ### The loops over specs and declarations -/

theorem token_type (tok : Token) : tok.String = "type" ↔ tok = .TYPE := by
  cases tok <;> simp [Token.String]

theorem parseImportSpecs_cons (g : Generator) (spec : Spec) (rest : List Spec) :
    parseImportSpecs g (spec :: rest) =
      parseImportSpecs (match spec with
        | .importSpec importSpec => recordImport g importSpec
        | .typeSpec _ _ => g
        | .valueSpec => g) rest := by
  cases spec <;> rfl

theorem parseTypeSpecs_cons (g : Generator) (defFound : Bool) (spec : Spec) (rest : List Spec) :
    parseTypeSpecs g defFound (spec :: rest) =
      match parseTypeSpec g defFound spec with
      | none => none
      | some ⟨g, defFound, some e⟩ => some ⟨g, defFound, some e⟩
      | some ⟨g, defFound, none⟩ => parseTypeSpecs g defFound rest := rfl

theorem parseDecls_cons (g : Generator) (defFound : Bool) (decl : Decl) (rest : List Decl) :
    parseDecls g defFound (decl :: rest) =
      match parseDecl g defFound decl with
      | none => none
      | some ⟨g, defFound, some e⟩ => some ⟨g, defFound, some e⟩
      | some ⟨g, defFound, none⟩ =>
        if defFound then some ⟨g, defFound, none⟩ else parseDecls g defFound rest := rfl

theorem parseImportSpecs_same (specs : List Spec) : ∀ g : Generator,
    SameAnalysis g (parseImportSpecs g specs) := by
  induction specs with
  | nil => intro g; exact SameAnalysis.refl g
  | cons s rest ih =>
    intro g
    rw [parseImportSpecs_cons]
    cases s with
    | importSpec i => exact SameAnalysis.trans ⟨rfl, rfl, rfl, rfl⟩ (ih _)
    | typeSpec n t => exact ih g
    | valueSpec => exact ih g

/-- The body of the spec loop on a spec that does not declare the type. -/
theorem parseTypeSpec_other (g : Generator) (defFound : Bool) (spec : Spec)
    (h : namedTypeSpecs g.TypeName [spec] = []) :
    parseTypeSpec g defFound spec = some ⟨g, defFound, none⟩ := by
  cases spec with
  | importSpec i => rfl
  | valueSpec => rfl
  | typeSpec n t =>
    by_cases hn : n = g.TypeName
    · simp [namedTypeSpecs, hn] at h
    · simp [parseTypeSpec, hn]

theorem namedTypeSpecs_cons (name : String) (spec : Spec) (rest : List Spec) :
    namedTypeSpecs name (spec :: rest) = namedTypeSpecs name [spec] ++ namedTypeSpecs name rest := by
  cases spec with
  | importSpec i => rfl
  | valueSpec => rfl
  | typeSpec n t =>
    by_cases hn : n = name <;> simp [namedTypeSpecs, hn]

theorem namedTypeSpecs_single (name : String) (spec : Spec) :
    namedTypeSpecs name [spec] = [] ∨
      ∃ t, spec = .typeSpec name t ∧ namedTypeSpecs name [spec] = [t] := by
  cases spec with
  | importSpec i => exact Or.inl rfl
  | valueSpec => exact Or.inl rfl
  | typeSpec n t =>
    by_cases hn : n = name
    · subst hn; exact Or.inr ⟨t, rfl, by simp [namedTypeSpecs]⟩
    · exact Or.inl (by simp [namedTypeSpecs, hn])

theorem parseTypeSpec_not_struct (g : Generator) (defFound : Bool) (t : Expr)
    (ht : t.isStruct = false) :
    parseTypeSpec g defFound (.typeSpec g.TypeName t) =
      some ⟨g, true, some (.notAStruct g.TypeName)⟩ := by
  cases t <;> first | (simp [Expr.isStruct] at ht; done) | (simp [parseTypeSpec])

theorem parseTypeSpec_struct (g : Generator) (defFound : Bool) (fields : List Field) :
    parseTypeSpec g defFound (.typeSpec g.TypeName (.structType fields)) =
      (parseFields g fields).map fun g' => ⟨g', true, none⟩ := by
  simp only [parseTypeSpec, if_true]
  cases parseFields g fields <;> rfl

theorem parseTypeSpecs_none_named (specs : List Spec) : ∀ (g : Generator) (defFound : Bool),
    namedTypeSpecs g.TypeName specs = [] →
      parseTypeSpecs g defFound specs = some ⟨g, defFound, none⟩ := by
  induction specs with
  | nil => intro g d _; rfl
  | cons s rest ih =>
    intro g d h
    rw [namedTypeSpecs_cons, List.append_eq_nil] at h
    rw [parseTypeSpecs_cons, parseTypeSpec_other g d s h.1]
    exact ih g d h.2

theorem parseTypeSpecs_not_struct (specs : List Spec) : ∀ (g : Generator) (defFound : Bool)
    (t : Expr) (more : List Expr), namedTypeSpecs g.TypeName specs = t :: more →
      t.isStruct = false →
      parseTypeSpecs g defFound specs = some ⟨g, true, some (.notAStruct g.TypeName)⟩ := by
  induction specs with
  | nil => intro g d t more h; simp [namedTypeSpecs] at h
  | cons s rest ih =>
    intro g d t more h ht
    rw [namedTypeSpecs_cons] at h
    rw [parseTypeSpecs_cons]
    rcases namedTypeSpecs_single g.TypeName s with h0 | ⟨t0, rfl, h0⟩
    · rw [parseTypeSpec_other g d s h0]
      rw [h0] at h
      exact ih g d t more h ht
    · rw [h0] at h
      simp only [List.singleton_append, List.cons.injEq] at h
      obtain ⟨rfl, _⟩ := h
      rw [parseTypeSpec_not_struct g d t0 ht]

theorem parseTypeSpecs_struct (specs : List Spec) : ∀ (g : Generator) (defFound : Bool)
    (fields : List Field), namedTypeSpecs g.TypeName specs = [.structType fields] →
      parseTypeSpecs g defFound specs =
        (parseFields g fields).map fun g' => ⟨g', true, none⟩ := by
  induction specs with
  | nil => intro g d fields h; simp [namedTypeSpecs] at h
  | cons s rest ih =>
    intro g d fields h
    rw [namedTypeSpecs_cons] at h
    rw [parseTypeSpecs_cons]
    rcases namedTypeSpecs_single g.TypeName s with h0 | ⟨t0, rfl, h0⟩
    · rw [parseTypeSpec_other g d s h0]
      rw [h0] at h
      exact ih g d fields h
    · rw [h0] at h
      simp only [List.singleton_append, List.cons.injEq] at h
      obtain ⟨rfl, hrest⟩ := h
      rw [parseTypeSpec_struct]
      cases hp : parseFields g fields with
      | none => rfl
      | some g1 =>
        have hT := (parseFields_some fields g g1 hp).1
        simp only [Option.map_some']
        exact parseTypeSpecs_none_named rest g1 true (by rw [hT]; exact hrest)

/-- Outcomes of the body of the spec loop. -/
theorem parseTypeSpec_outcome (g : Generator) (defFound : Bool) (spec : Spec) (sc : Scan)
    (h : parseTypeSpec g defFound spec = some sc) :
    sc.g.TypeName = g.TypeName ∧
      (sc.err = none ∨ sc.err = some (.notAStruct g.TypeName)) ∧
      (defFound = true → sc.defFound = true) ∧
      (namedTypeSpecs g.TypeName [spec] ≠ [] → sc.defFound = true) := by
  rcases namedTypeSpecs_single g.TypeName spec with h0 | ⟨t0, rfl, h0⟩
  · rw [parseTypeSpec_other g defFound spec h0, Option.some.injEq] at h
    subst h
    simp [h0]
  · cases ht : t0.isStruct with
    | false =>
      rw [parseTypeSpec_not_struct g defFound t0 ht, Option.some.injEq] at h
      subst h
      simp
    | true =>
      cases t0 with
      | structType fields =>
        rw [parseTypeSpec_struct] at h
        cases hp : parseFields g fields with
        | none => simp [hp] at h
        | some g1 =>
          simp only [hp, Option.map_some', Option.some.injEq] at h
          subst h
          exact ⟨(parseFields_some fields g g1 hp).1, Or.inl rfl, fun _ => rfl, fun _ => rfl⟩
      | starExpr _ => simp [Expr.isStruct] at ht
      | selectorExpr _ _ => simp [Expr.isStruct] at ht
      | funcType _ _ => simp [Expr.isStruct] at ht
      | ident _ => simp [Expr.isStruct] at ht
      | otherExpr => simp [Expr.isStruct] at ht

/-- Outcomes of the loop over the specs: same type name, error only not-a-struct,
flag raised once a spec has the name. -/
theorem parseTypeSpecs_outcome (specs : List Spec) : ∀ (g : Generator) (defFound : Bool)
    (sc : Scan), parseTypeSpecs g defFound specs = some sc →
      sc.g.TypeName = g.TypeName ∧
      (sc.err = none ∨ sc.err = some (.notAStruct g.TypeName)) ∧
      (defFound = true → sc.defFound = true) ∧
      (namedTypeSpecs g.TypeName specs ≠ [] → sc.defFound = true) := by
  induction specs with
  | nil =>
    intro g d sc h
    simp only [parseTypeSpecs, Option.some.injEq] at h
    subst h
    simp [namedTypeSpecs]
  | cons s rest ih =>
    intro g d sc h
    rw [parseTypeSpecs_cons] at h
    cases h1 : parseTypeSpec g d s with
    | none => simp [h1] at h
    | some sc1 =>
      obtain ⟨g1, d1, e1⟩ := sc1
      obtain ⟨a1, a2, a3, a4⟩ := parseTypeSpec_outcome g d s _ h1
      simp only at a1 a2 a3 a4
      cases e1 with
      | some e =>
        simp only [h1, Option.some.injEq] at h
        subst h
        refine ⟨a1, a2, a3, ?_⟩
        intro hne
        rcases namedTypeSpecs_single g.TypeName s with h0 | ⟨t0, rfl, h0⟩
        · rw [parseTypeSpec_other g d s h0] at h1
          simp at h1
        · exact a4 (by rw [h0]; simp)
      | none =>
        simp only [h1] at h
        obtain ⟨b1, b2, b3, b4⟩ := ih g1 d1 sc h
        rw [a1] at b1 b2 b4
        refine ⟨b1, b2, fun hd => b3 (a3 hd), ?_⟩
        intro hne
        rw [namedTypeSpecs_cons] at hne
        by_cases h0 : namedTypeSpecs g.TypeName [s] = []
        · rw [h0, List.nil_append] at hne
          exact b4 hne
        · exact b3 (a4 h0)

theorem namedTypes_cons (name : String) (decl : Decl) (rest : List Decl) :
    namedTypes name (decl :: rest) = namedTypes name [decl] ++ namedTypes name rest := by
  cases decl <;> simp [namedTypes]

theorem namedTypes_single_genDecl (name : String) (tok : Token) (specs : List Spec) :
    namedTypes name [.genDecl tok specs] =
      if tok = .TYPE then namedTypeSpecs name specs else [] := by
  simp [namedTypes]

theorem parseDecl_genDecl_type (g : Generator) (defFound : Bool) (specs : List Spec) :
    parseDecl g defFound (.genDecl .TYPE specs) = parseTypeSpecs g defFound specs := by
  simp [parseDecl, Token.String]

theorem parseDecl_genDecl_other (g : Generator) (defFound : Bool) (tok : Token)
    (specs : List Spec) (h : tok ≠ .TYPE) :
    ∃ g1, SameAnalysis g g1 ∧ parseDecl g defFound (.genDecl tok specs) = some ⟨g1, defFound, none⟩ := by
  have h' : ¬ tok.String = "type" := fun e => h ((token_type tok).1 e)
  by_cases hi : tok.String = "import"
  · exact ⟨parseImportSpecs g specs, parseImportSpecs_same specs g, by simp [parseDecl, hi, h']⟩
  · exact ⟨g, SameAnalysis.refl g, by simp [parseDecl, hi, h']⟩

theorem parseDecl_other (g : Generator) (defFound : Bool) (decl : Decl)
    (h : namedTypes g.TypeName [decl] = []) :
    ∃ g1, SameAnalysis g g1 ∧ parseDecl g defFound decl = some ⟨g1, defFound, none⟩ := by
  cases decl with
  | funcDecl => exact ⟨g, SameAnalysis.refl g, rfl⟩
  | badDecl => exact ⟨g, SameAnalysis.refl g, rfl⟩
  | genDecl tok specs =>
    by_cases ht : tok = .TYPE
    · subst ht
      rw [namedTypes_single_genDecl, if_pos rfl] at h
      exact ⟨g, SameAnalysis.refl g, by
        rw [parseDecl_genDecl_type, parseTypeSpecs_none_named specs g defFound h]⟩
    · exact parseDecl_genDecl_other g defFound tok specs ht

/-- A declaration with a spec of the name is a type declaration. -/
theorem namedTypes_single_ne_nil (name : String) (decl : Decl)
    (h : namedTypes name [decl] ≠ []) :
    ∃ specs, decl = .genDecl .TYPE specs ∧ namedTypes name [decl] = namedTypeSpecs name specs := by
  cases decl with
  | funcDecl => simp [namedTypes] at h
  | badDecl => simp [namedTypes] at h
  | genDecl tok specs =>
    by_cases ht : tok = .TYPE
    · subst ht
      exact ⟨specs, rfl, by simp [namedTypes]⟩
    · simp [namedTypes, ht] at h

theorem parseDecl_outcome (g : Generator) (defFound : Bool) (decl : Decl) (sc : Scan)
    (h : parseDecl g defFound decl = some sc) :
    sc.g.TypeName = g.TypeName ∧
      (sc.err = none ∨ sc.err = some (.notAStruct g.TypeName)) ∧
      (defFound = true → sc.defFound = true) ∧
      (namedTypes g.TypeName [decl] ≠ [] → sc.defFound = true) := by
  by_cases h0 : namedTypes g.TypeName [decl] = []
  · obtain ⟨g1, hs, he⟩ := parseDecl_other g defFound decl h0
    rw [he, Option.some.injEq] at h
    subst h
    exact ⟨hs.1, Or.inl rfl, fun hd => hd, fun hne => absurd h0 hne⟩
  · obtain ⟨specs, rfl, hnt⟩ := namedTypes_single_ne_nil _ _ h0
    rw [parseDecl_genDecl_type] at h
    obtain ⟨a1, a2, a3, a4⟩ := parseTypeSpecs_outcome specs g defFound sc h
    exact ⟨a1, a2, a3, fun _ => a4 (by rw [← hnt]; exact h0)⟩

theorem parseDecls_none_named (decls : List Decl) : ∀ (g : Generator),
    namedTypes g.TypeName decls = [] →
      ∃ g1, SameAnalysis g g1 ∧ parseDecls g false decls = some ⟨g1, false, none⟩ := by
  induction decls with
  | nil => intro g _; exact ⟨g, SameAnalysis.refl g, rfl⟩
  | cons d rest ih =>
    intro g h
    rw [namedTypes_cons, List.append_eq_nil] at h
    obtain ⟨g1, hs, he⟩ := parseDecl_other g false d h.1
    obtain ⟨g2, hs2, he2⟩ := ih g1 (by rw [hs.1]; exact h.2)
    exact ⟨g2, SameAnalysis.trans hs hs2, by rw [parseDecls_cons, he]; simpa using he2⟩

theorem parseDecls_not_struct (decls : List Decl) : ∀ (g : Generator) (t : Expr)
    (more : List Expr), namedTypes g.TypeName decls = t :: more → t.isStruct = false →
      ∃ g1, SameAnalysis g g1 ∧
        parseDecls g false decls = some ⟨g1, true, some (.notAStruct g.TypeName)⟩ := by
  induction decls with
  | nil => intro g t more h; simp [namedTypes] at h
  | cons d rest ih =>
    intro g t more h ht
    rw [namedTypes_cons] at h
    by_cases h0 : namedTypes g.TypeName [d] = []
    · obtain ⟨g1, hs, he⟩ := parseDecl_other g false d h0
      rw [h0, List.nil_append] at h
      obtain ⟨g2, hs2, he2⟩ := ih g1 t more (by rw [hs.1]; exact h) ht
      refine ⟨g2, SameAnalysis.trans hs hs2, ?_⟩
      rw [parseDecls_cons, he]
      simpa [hs.1] using he2
    · obtain ⟨specs, rfl, hnt⟩ := namedTypes_single_ne_nil _ _ h0
      rw [hnt] at h h0
      obtain ⟨t0, more0, hcons⟩ := List.exists_cons_of_ne_nil h0
      rw [hcons, List.cons_append, List.cons.injEq] at h
      obtain ⟨rfl, _⟩ := h
      refine ⟨g, SameAnalysis.refl g, ?_⟩
      rw [parseDecls_cons, parseDecl_genDecl_type,
        parseTypeSpecs_not_struct specs g false t0 more0 hcons ht]

theorem parseDecls_struct (decls : List Decl) : ∀ (g : Generator) (fields : List Field),
    namedTypes g.TypeName decls = [.structType fields] →
      ∃ g1, SameAnalysis g g1 ∧
        parseDecls g false decls = (parseFields g1 fields).map fun g' => ⟨g', true, none⟩ := by
  induction decls with
  | nil => intro g fields h; simp [namedTypes] at h
  | cons d rest ih =>
    intro g fields h
    rw [namedTypes_cons] at h
    by_cases h0 : namedTypes g.TypeName [d] = []
    · obtain ⟨g1, hs, he⟩ := parseDecl_other g false d h0
      rw [h0, List.nil_append] at h
      obtain ⟨g2, hs2, he2⟩ := ih g1 fields (by rw [hs.1]; exact h)
      refine ⟨g2, SameAnalysis.trans hs hs2, ?_⟩
      rw [parseDecls_cons, he]
      simpa using he2
    · obtain ⟨specs, rfl, hnt⟩ := namedTypes_single_ne_nil _ _ h0
      rw [hnt] at h h0
      obtain ⟨t0, more0, hcons⟩ := List.exists_cons_of_ne_nil h0
      rw [hcons, List.cons_append, List.cons.injEq] at h
      obtain ⟨rfl, hmore⟩ := h
      have hm : more0 = [] := (List.append_eq_nil.1 hmore).1
      subst hm
      refine ⟨g, SameAnalysis.refl g, ?_⟩
      rw [parseDecls_cons, parseDecl_genDecl_type, parseTypeSpecs_struct specs g false fields hcons]
      cases parseFields g fields <;> rfl

theorem parseDecls_outcome (decls : List Decl) : ∀ (g : Generator) (defFound : Bool)
    (sc : Scan), parseDecls g defFound decls = some sc →
      sc.g.TypeName = g.TypeName ∧
      (sc.err = none ∨ sc.err = some (.notAStruct g.TypeName)) ∧
      (defFound = true → sc.defFound = true) ∧
      (namedTypes g.TypeName decls ≠ [] → sc.defFound = true) := by
  induction decls with
  | nil =>
    intro g d sc h
    simp only [parseDecls, Option.some.injEq] at h
    subst h
    simp [namedTypes]
  | cons s rest ih =>
    intro g d sc h
    rw [parseDecls_cons] at h
    cases h1 : parseDecl g d s with
    | none => simp [h1] at h
    | some sc1 =>
      obtain ⟨g1, d1, e1⟩ := sc1
      obtain ⟨a1, a2, a3, a4⟩ := parseDecl_outcome g d s _ h1
      simp only at a1 a2 a3 a4
      cases e1 with
      | some e =>
        simp only [h1, Option.some.injEq] at h
        subst h
        refine ⟨a1, a2, a3, ?_⟩
        intro hne
        by_cases h0 : namedTypes g.TypeName [s] = []
        · obtain ⟨g2, _, he⟩ := parseDecl_other g d s h0
          rw [he] at h1
          simp at h1
        · exact a4 h0
      | none =>
        simp only [h1] at h
        cases d1 with
        | true =>
          simp only [if_true, Option.some.injEq] at h
          subst h
          exact ⟨a1, Or.inl rfl, fun _ => rfl, fun _ => rfl⟩
        | false =>
          simp only [Bool.false_eq_true, if_false] at h
          obtain ⟨b1, b2, b3, b4⟩ := ih g1 false sc h
          rw [a1] at b1 b2 b4
          refine ⟨b1, b2, fun hd => ?_, ?_⟩
          · have := a3 hd
            simp at this
          · intro hne
            rw [namedTypes_cons] at hne
            by_cases h0 : namedTypes g.TypeName [s] = []
            · rw [h0, List.nil_append] at hne
              exact b4 hne
            · have := a4 h0
              simp at this

theorem parseAst_eq (g : Generator) (file : File) (hAst : g.Ast = some file) :
    parseAst g =
      match parseDecls { g with PackageName := file.Name } false file.Decls with
      | none => none
      | some ⟨g, _, some e⟩ => some (g, some e)
      | some ⟨g, defFound, none⟩ =>
        if !defFound then some (g, some .typeNotFound)
        else if g.Fields.length = 0 then some (g, some .emptyStruct)
        else some (g, none) := by
  cases g
  simp only at hAst
  subst hAst
  rfl

/-- The run of `parseAst` on a file whose only declaration of the type is a
struct: the fields are extracted, then the collection is tested. -/
theorem parseAst_struct (g : Generator) (file : File) (fields : List Field)
    (hAst : g.Ast = some file)
    (hdecl : namedTypes g.TypeName file.Decls = [.structType fields]) :
    ∃ g1, g1.TypeName = g.TypeName ∧ g1.NeededImports = g.NeededImports ∧
      g1.Fields = g.Fields ∧
      parseAst g = (parseFields g1 fields).map fun g' =>
        (g', if g'.Fields.length = 0 then some GenError.emptyStruct else none) := by
  obtain ⟨g1, hs, he⟩ := parseDecls_struct file.Decls { g with PackageName := file.Name }
    fields hdecl
  refine ⟨g1, hs.1, hs.2.1, hs.2.2.1, ?_⟩
  rw [parseAst_eq g file hAst, he]
  cases parseFields g1 fields with
  | none => rfl
  | some g' =>
    simp only [Option.map_some', Bool.not_true, Bool.false_eq_true, if_false]
    split <;> rfl

theorem fieldNames_eq_nil (fields : List Field) :
    fieldNames fields = [] ↔ ∀ f ∈ fields, f.names = [] := by
  induction fields with
  | nil => simp [fieldNames]
  | cons f rest ih => simp [fieldNames, ih]

/-! ### The emitter -/

theorem foldl_append_eq {α : Type} (f : α → String) (l : List α) : ∀ init : String,
    l.foldl (fun out x => out ++ f x) init = init ++ String.join (l.map f) := by
  have hj : ∀ (l : List String) (init : String),
      l.foldl (fun r s => r ++ s) init = init ++ l.foldl (fun r s => r ++ s) "" := by
    intro l
    induction l with
    | nil => intro init; simp
    | cons a l ih =>
      intro init
      rw [List.foldl_cons, ih, List.foldl_cons, ih ("" ++ a)]
      simp [String.append_assoc]
  induction l with
  | nil => intro init; simp [String.join]
  | cons a l ih =>
    intro init
    rw [List.foldl_cons, ih]
    simp only [String.join, List.map_cons, List.foldl_cons]
    rw [hj _ ("" ++ f a)]
    simp [String.append_assoc]

theorem String.join_cons_eq (x : String) (xs : List String) :
    String.join (x :: xs) = x ++ String.join xs := by
  have := foldl_append_eq (fun s : String => s) xs ("" ++ x)
  simp only [List.map_id'] at this
  simp only [String.join, List.foldl_cons]
  rw [this]
  simp [String.join]

theorem foldl_emitImport (g : Generator) (l : List String) : ∀ init : String,
    l.foldl (emitImport g) init =
      init ++ String.join ((l.filterMap fun fieldType =>
        (mapLookup g.ParsedImports fieldType).map fun importString =>
          (fieldType, importString)).map fun c => importLine c.2) := by
  induction l with
  | nil => intro init; simp [String.join]
  | cons a l ih =>
    intro init
    rw [List.foldl_cons, ih]
    unfold emitImport
    cases h : mapLookup g.ParsedImports a with
    | none => simp [List.filterMap_cons, h]
    | some c =>
      simp only [List.filterMap_cons, h, Option.map_some', List.map_cons]
      rw [String.join_cons_eq, String.append_assoc]

/-- The text of `generateOutput`, section by section. -/
theorem generateOutput_sections (caser : String → String) (order : StrMap) (g : Generator) :
    generateOutput caser order g =
      "package " ++ g.PackageName ++ "\n\n" ++
      String.join ((importClauses g).map fun c => importLine c.2) ++
      builderDecl (g.TypeName ++ "Builder") g.TypeName ++
      String.join (order.map (setterMethod caser (g.TypeName ++ "Builder"))) ++
      accessorP (g.TypeName ++ "Builder") g.TypeName ++
      accessorV (g.TypeName ++ "Builder") g.TypeName := by
  simp only [generateOutput, importClauses, foldl_emitImport, foldl_append_eq]

theorem mem_importClauses (g : Generator) (ns clause : String)
    (hn : ns ∈ g.NeededImports) (hk : mapLookup g.ParsedImports ns = some clause) :
    (ns, clause) ∈ importClauses g := by
  unfold importClauses
  rw [List.mem_filterMap]
  exact ⟨ns, hn, by simp [hk]⟩

theorem count_importClauses (g : Generator) (ns clause : String)
    (hk : mapLookup g.ParsedImports ns = some clause) :
    (importClauses g).count (ns, clause) = g.NeededImports.count ns := by
  unfold importClauses
  induction g.NeededImports with
  | nil => simp
  | cons a l ih =>
    by_cases ha : a = ns
    · subst ha
      simp [List.filterMap_cons, hk, ih]
    · cases h : mapLookup g.ParsedImports a with
      | none => simp [List.filterMap_cons, h, ih, List.count_cons, ha]
      | some c =>
        simp only [List.filterMap_cons, h, Option.map_some']
        simp [List.count_cons, ha, ih]

theorem importClauses_fst (g : Generator) (c : String × String) (hc : c ∈ importClauses g) :
    c.1 ∈ g.NeededImports ∧ mapLookup g.ParsedImports c.1 = some c.2 := by
  unfold importClauses at hc
  rw [List.mem_filterMap] at hc
  obtain ⟨a, ha, h⟩ := hc
  cases hl : mapLookup g.ParsedImports a with
  | none => simp [hl] at h
  | some v =>
    simp only [hl, Option.map_some', Option.some.injEq] at h
    subst h
    exact ⟨ha, hl⟩

theorem count_qualifiers (fields : List Field) (ns : String) :
    (fields.filterMap fun f => qualifierOf f.type).count ns =
      fields.countP fun f => decide (qualifierOf f.type = some ns) := by
  induction fields with
  | nil => simp
  | cons f rest ih =>
    cases hq : qualifierOf f.type with
    | none => simp [List.filterMap_cons, hq, ih]
    | some n =>
      by_cases hn : n = ns
      · subst hn
        simp [List.filterMap_cons, hq, ih]
      · simp [List.filterMap_cons, hq, ih, hn, List.count_cons]

/-- A successful analysis of a file whose only declaration of the type is a
struct ends in the state left by the loop over the fields. -/
theorem parseAst_struct_ok (g g' : Generator) (file : File) (fields : List Field)
    (hAst : g.Ast = some file)
    (hdecl : namedTypes g.TypeName file.Decls = [.structType fields])
    (hok : parseAst g = some (g', none)) :
    ∃ g1, g1.NeededImports = g.NeededImports ∧ g1.Fields = g.Fields ∧
      parseFields g1 fields = some g' := by
  obtain ⟨g1, _, hN, hF, he⟩ := parseAst_struct g file fields hAst hdecl
  rw [he] at hok
  cases hp : parseFields g1 fields with
  | none => simp [hp] at hok
  | some g2 =>
    simp only [hp, Option.map_some', Option.some.injEq, Prod.mk.injEq] at hok
    exact ⟨g1, hN, hF, by rw [hp, hok.1]⟩

theorem join_mem_split (l : List String) (x : String) (hx : x ∈ l) :
    ∃ a b, String.join l = a ++ x ++ b := by
  induction l with
  | nil => simp at hx
  | cons y ys ih =>
    rcases List.mem_cons.1 hx with rfl | h
    · exact ⟨"", String.join ys, by rw [String.join_cons_eq]; simp⟩
    · obtain ⟨a, b, hab⟩ := ih h
      exact ⟨y ++ a, b, by rw [String.join_cons_eq, hab]; simp [String.append_assoc]⟩

/-! ### Reconstruction of types: when it returns, and its text -/

theorem fieldItems_cons (g : Generator) (names : List String) (type : Expr) (rest : List Field) :
    fieldItems g (.mk names type :: rest) =
      match getFieldTypeString g type with
      | none => none
      | some (paramsType, g) =>
        match fieldItems g rest with
        | none => none
        | some (items, g) =>
          some ((Join (getFieldNames (.mk names type)) "," ++ " " ++ paramsType) :: items, g) := by
  rfl

mutual
theorem getFieldTypeString_text_indep : ∀ (e : Expr) (g g' : Generator),
    (getFieldTypeString g e).map Prod.fst = (getFieldTypeString g' e).map Prod.fst
  | .starExpr x, g, g' => by
    have ih := getFieldTypeString_text_indep x g g'
    rw [getFieldTypeString, getFieldTypeString]
    cases h1 : getFieldTypeString g x <;> cases h2 : getFieldTypeString g' x <;>
      simp_all
  | .selectorExpr x sel, g, g' => by
    have ih := getFieldTypeString_text_indep x g g'
    rw [getFieldTypeString, getFieldTypeString]
    cases h1 : getFieldTypeString g x <;> cases h2 : getFieldTypeString g' x <;>
      simp_all
  | .funcType params none, g, g' => by
    rw [getFieldTypeString_funcType, getFieldTypeString_funcType]
    simp only [formatFuncTypeString]
    cases fieldItems g params <;> cases fieldItems g' params <;> rfl
  | .funcType params (some results), g, g' => by
    rw [getFieldTypeString_funcType, getFieldTypeString_funcType]
    simp only [formatFuncTypeString, Option.map_map]
    have ih1 := fieldItems_text_indep params g g'
    cases h1 : fieldItems g params with
    | none =>
      cases h2 : fieldItems g' params with
      | none => rfl
      | some q => simp [h1, h2] at ih1
    | some p =>
      cases h2 : fieldItems g' params with
      | none => simp [h1, h2] at ih1
      | some q =>
        have ih2 := fieldItems_text_indep results p.2 q.2
        simp only [h1, h2, Option.map_some', Option.some.injEq] at ih1
        obtain ⟨i1, ga⟩ := p
        obtain ⟨i2, gb⟩ := q
        simp only at ih1 ih2 ⊢
        subst ih1
        cases h3 : fieldItems ga results <;> cases h4 : fieldItems gb results <;>
          simp_all
  | .ident _, g, g' => by simp [getFieldTypeString]
  | .structType _, g, g' => by simp [getFieldTypeString]
  | .otherExpr, g, g' => by simp [getFieldTypeString]
theorem fieldItems_text_indep : ∀ (fields : List Field) (g g' : Generator),
    (fieldItems g fields).map Prod.fst = (fieldItems g' fields).map Prod.fst
  | [], g, g' => by simp [fieldItems]
  | .mk names type :: rest, g, g' => by
    have ih1 := getFieldTypeString_text_indep type g g'
    rw [fieldItems_cons, fieldItems_cons]
    cases h1 : getFieldTypeString g type with
    | none =>
      cases h2 : getFieldTypeString g' type with
      | none => rfl
      | some q => simp [h1, h2] at ih1
    | some p =>
      cases h2 : getFieldTypeString g' type with
      | none => simp [h1, h2] at ih1
      | some q =>
        obtain ⟨t1, ga⟩ := p
        obtain ⟨t2, gb⟩ := q
        have ih2 := fieldItems_text_indep rest ga gb
        simp only [h1, h2, Option.map_some', Option.some.injEq] at ih1
        subst ih1
        simp only
        cases h3 : fieldItems ga rest <;> cases h4 : fieldItems gb rest <;>
          simp_all
end


mutual
theorem getFieldTypeString_isSome : ∀ (e : Expr) (g : Generator),
    (getFieldTypeString g e).isSome = reconstructs e
  | .starExpr x, g => by
    have ih := getFieldTypeString_isSome x g
    rw [getFieldTypeString, reconstructs, ← ih]
    cases getFieldTypeString g x <;> rfl
  | .selectorExpr x sel, g => by
    have ih := getFieldTypeString_isSome x g
    rw [getFieldTypeString, reconstructs, ← ih]
    cases getFieldTypeString g x <;> rfl
  | .funcType params none, g => by
    rw [getFieldTypeString, reconstructs]
    cases fieldItems g params <;> rfl
  | .funcType params (some results), g => by
    have ih1 := fieldItems_isSome params g
    rw [getFieldTypeString, reconstructs, ← ih1]
    cases h1 : fieldItems g params with
    | none => rfl
    | some p =>
      obtain ⟨i1, g1⟩ := p
      have ih2 := fieldItems_isSome results g1
      simp only [Option.isSome_some, Bool.true_and, ← ih2]
      cases fieldItems g1 results <;> rfl
  | .ident _, g => by simp [getFieldTypeString, reconstructs]
  | .structType _, g => by simp [getFieldTypeString, reconstructs]
  | .otherExpr, g => by simp [getFieldTypeString, reconstructs]
theorem fieldItems_isSome : ∀ (fields : List Field) (g : Generator),
    (fieldItems g fields).isSome = fieldsReconstruct fields
  | [], g => by simp [fieldItems, fieldsReconstruct]
  | .mk names type :: rest, g => by
    have ih1 := getFieldTypeString_isSome type g
    rw [fieldItems_cons, fieldsReconstruct, ← ih1]
    cases h1 : getFieldTypeString g type with
    | none => rfl
    | some p =>
      obtain ⟨t1, g1⟩ := p
      have ih2 := fieldItems_isSome rest g1
      simp only [Option.isSome_some, Bool.true_and, ← ih2]
      cases fieldItems g1 rest <;> rfl
end

/-- The items of the loops of `formatFuncTypeString`, group by group: names
joined by ",", a blank, the text of the type. -/
theorem fieldItems_items (fields : List Field) : ∀ (g0 g g' : Generator) (items : List String),
    fieldItems g fields = some (items, g') →
      List.Forall₂ (fun field item => ∃ t,
        (getFieldTypeString g0 field.type).map Prod.fst = some t ∧
        item = Join field.names "," ++ " " ++ t) fields items := by
  induction fields with
  | nil =>
    intro g0 g g' items h
    simp only [fieldItems, Option.some.injEq, Prod.mk.injEq] at h
    rw [← h.1]
    exact List.Forall₂.nil
  | cons f rest ih =>
    intro g0 g g' items h
    obtain ⟨names, type⟩ := f
    rw [fieldItems_cons] at h
    cases h1 : getFieldTypeString g type with
    | none => simp [h1] at h
    | some p =>
      obtain ⟨t1, g1⟩ := p
      simp only [h1] at h
      cases h2 : fieldItems g1 rest with
      | none => simp [h2] at h
      | some q =>
        obtain ⟨items1, g2⟩ := q
        simp only [h2, Option.some.injEq, Prod.mk.injEq] at h
        rw [← h.1]
        refine List.Forall₂.cons ⟨t1, ?_, ?_⟩ (ih g0 g1 g2 items1 h2)
        · rw [getFieldTypeString_text_indep _ g0 g]
          simp [Field.type, h1]
        · simp [getFieldNames_eq, Field.names]

theorem mapLookup_storeAll (names : List String) (v : String) : ∀ (m : StrMap) (k : String),
    mapLookup (storeAll m names v) k = if k ∈ names then some v else mapLookup m k := by
  induction names with
  | nil => intro m k; simp [storeAll_nil]
  | cons n rest ih =>
    intro m k
    rw [storeAll_cons, ih, mapLookup_mapStore]
    by_cases h1 : k ∈ rest
    · simp [h1]
    · by_cases h2 : k = n
      · simp [h2]
      · simp [h1, h2]

/-! ### Trimming of quotes -/

theorem dropWhile_of_head_false {α : Type} (p : α → Bool) (a : α) (l : List α)
    (h : p a = false) : (a :: l).dropWhile p = a :: l := by
  simp [List.dropWhile, h]

theorem Trim_quote_free (s : String) (h : '\"' ∉ s.data) : Trim s "\"" = s := by
  have hq : ∀ c ∈ s.data, ("\"" : String).data.contains c = false := by
    intro c hc
    have : c ≠ '\"' := fun e => h (e ▸ hc)
    simp [this]
  have key : ∀ l : List Char, (∀ c ∈ l, ("\"" : String).data.contains c = false) →
      l.dropWhile (fun c => ("\"" : String).data.contains c) = l := by
    intro l hl
    cases l with
    | nil => rfl
    | cons a l => exact dropWhile_of_head_false _ a l (hl a (List.mem_cons_self _ _))
  unfold Trim
  rw [key s.data hq, key s.data.reverse (fun c hc => hq c (List.mem_reverse.1 hc))]
  simp

theorem Trim_quoted (body : String) (h : '\"' ∉ body.data) :
    Trim ("\"" ++ body ++ "\"") "\"" = body := by
  have hq : ∀ c ∈ body.data, ("\"" : String).data.contains c = false := by
    intro c hc
    have : c ≠ '\"' := fun e => h (e ▸ hc)
    simp [this]
  have key : ∀ l : List Char, (∀ c ∈ l, ("\"" : String).data.contains c = false) →
      l.dropWhile (fun c => ("\"" : String).data.contains c) = l := by
    intro l hl
    cases l with
    | nil => rfl
    | cons a l => exact dropWhile_of_head_false _ a l (hl a (List.mem_cons_self _ _))
  have hdata : ("\"" ++ body ++ "\"").data = '\"' :: (body.data ++ ['\"']) := by
    simp [String.data_append]
  unfold Trim
  apply String.ext
  simp only [hdata]
  cases hb : body.data with
  | nil => simp [List.dropWhile]
  | cons a l =>
    have ha : ("\"" : String).data.contains a = false := hq a (by rw [hb]; exact List.mem_cons_self _ _)
    have h1 : ('\"' :: ((a :: l) ++ ['\"'])).dropWhile (fun c => ("\"" : String).data.contains c) =
        (a :: l) ++ ['\"'] := by
      rw [List.dropWhile_cons_of_pos (by simp)]
      exact dropWhile_of_head_false _ a _ ha
    rw [h1]
    have h2 : ((a :: l) ++ ['\"']).reverse = '\"' :: (a :: l).reverse := by simp
    rw [h2, List.dropWhile_cons_of_pos (by simp),
      key (a :: l).reverse (fun c hc => hq c (by rw [hb]; exact List.mem_reverse.1 hc))]
    simp

/-! ### The text handed to the sink -/

/-- What `Generate` does with the text it built. -/
theorem Generate_of_generatedText (env : Env) (g : Generator) (text : String)
    (h : generatedText env g = some text) :
    ∃ g', Generate env g = some (g', (save env g' text).1, (save env g' text).2) := by
  unfold generatedText at h
  unfold Generate
  cases h1 : getAst env g with
  | mk g1 e1 =>
    cases e1 with
    | some e => simp [h1] at h
    | none =>
      simp only [h1] at h ⊢
      cases h2 : parseAst g1 with
      | none => simp [h2] at h
      | some r =>
        obtain ⟨g2, e2⟩ := r
        cases e2 with
        | some e => simp [h2] at h
        | none =>
          simp only [h2, Option.some.injEq] at h ⊢
          exact ⟨g2, by simp [generateAndSave, h]⟩

/-- A successful run: the parser returned a file with a package name, the
analysis returned no error, and the text is that of the emitter. -/
theorem generatedText_some (env : Env) (g : Generator) (text : String)
    (h : generatedText env g = some text) :
    ∃ file g', env.ParseFile g.SourceFile = .ok file ∧
      parseAst { g with Ast := some file } = some (g', none) ∧
      text = generateOutput env.caser (env.rangeOrder g'.Fields) g' := by
  unfold generatedText at h
  unfold getAst at h
  cases hp : env.ParseFile g.SourceFile with
  | error msg => simp [hp] at h
  | ok astf =>
    simp only [hp] at h
    by_cases hn : astf.Name = ""
    · simp [hn] at h
    · simp only [hn, if_false] at h
      cases h2 : parseAst { g with Ast := some astf } with
      | none => simp [h2] at h
      | some r =>
        obtain ⟨g2, e2⟩ := r
        cases e2 with
        | some e => simp [h2] at h
        | none =>
          simp only [h2, Option.some.injEq] at h
          exact ⟨astf, g2, rfl, h2, h.symm⟩

theorem generatedText_of_parseAst (env : Env) (g : Generator) (file : File) (g' : Generator)
    (hp : env.ParseFile g.SourceFile = .ok file) (hn : file.Name ≠ "")
    (ha : parseAst { g with Ast := some file } = some (g', none)) :
    generatedText env g =
      some (generateOutput env.caser (env.rangeOrder g'.Fields) g') := by
  unfold generatedText getAst
  simp [hp, hn, ha]

theorem parseTypeSpec_package (g : Generator) (defFound : Bool) (spec : Spec) (sc : Scan)
    (h : parseTypeSpec g defFound spec = some sc) : sc.g.PackageName = g.PackageName := by
  rcases namedTypeSpecs_single g.TypeName spec with h0 | ⟨t0, rfl, _⟩
  · rw [parseTypeSpec_other g defFound spec h0, Option.some.injEq] at h
    subst h; rfl
  · cases ht : t0.isStruct with
    | false =>
      rw [parseTypeSpec_not_struct g defFound t0 ht, Option.some.injEq] at h
      subst h; rfl
    | true =>
      cases t0 with
      | structType fields =>
        rw [parseTypeSpec_struct] at h
        cases hp : parseFields g fields with
        | none => simp [hp] at h
        | some g1 =>
          simp only [hp, Option.map_some', Option.some.injEq] at h
          subst h
          exact (parseFields_some fields g g1 hp).2.2.1
      | starExpr _ => simp [Expr.isStruct] at ht
      | selectorExpr _ _ => simp [Expr.isStruct] at ht
      | funcType _ _ => simp [Expr.isStruct] at ht
      | ident _ => simp [Expr.isStruct] at ht
      | otherExpr => simp [Expr.isStruct] at ht

theorem parseTypeSpecs_package (specs : List Spec) : ∀ (g : Generator) (defFound : Bool)
    (sc : Scan), parseTypeSpecs g defFound specs = some sc →
      sc.g.PackageName = g.PackageName := by
  induction specs with
  | nil =>
    intro g d sc h
    simp only [parseTypeSpecs, Option.some.injEq] at h
    subst h; rfl
  | cons s rest ih =>
    intro g d sc h
    rw [parseTypeSpecs_cons] at h
    cases h1 : parseTypeSpec g d s with
    | none => simp [h1] at h
    | some sc1 =>
      obtain ⟨g1, d1, e1⟩ := sc1
      have a1 := parseTypeSpec_package g d s _ h1
      simp only at a1
      cases e1 with
      | some e =>
        simp only [h1, Option.some.injEq] at h
        subst h
        exact a1
      | none =>
        simp only [h1] at h
        rw [ih g1 d1 sc h, a1]

theorem parseDecl_package (g : Generator) (defFound : Bool) (decl : Decl) (sc : Scan)
    (h : parseDecl g defFound decl = some sc) : sc.g.PackageName = g.PackageName := by
  cases decl with
  | funcDecl => simp only [parseDecl, Option.some.injEq] at h; subst h; rfl
  | badDecl => simp only [parseDecl, Option.some.injEq] at h; subst h; rfl
  | genDecl tok specs =>
    by_cases ht : tok = .TYPE
    · subst ht
      rw [parseDecl_genDecl_type] at h
      exact parseTypeSpecs_package specs g defFound sc h
    · obtain ⟨g1, hs, he⟩ := parseDecl_genDecl_other g defFound tok specs ht
      rw [he, Option.some.injEq] at h
      subst h
      exact hs.2.2.2

theorem parseDecls_package (decls : List Decl) : ∀ (g : Generator) (defFound : Bool)
    (sc : Scan), parseDecls g defFound decls = some sc →
      sc.g.PackageName = g.PackageName := by
  induction decls with
  | nil =>
    intro g d sc h
    simp only [parseDecls, Option.some.injEq] at h
    subst h; rfl
  | cons s rest ih =>
    intro g d sc h
    rw [parseDecls_cons] at h
    cases h1 : parseDecl g d s with
    | none => simp [h1] at h
    | some sc1 =>
      obtain ⟨g1, d1, e1⟩ := sc1
      have a1 := parseDecl_package g d s _ h1
      simp only at a1
      cases e1 with
      | some e =>
        simp only [h1, Option.some.injEq] at h
        subst h
        exact a1
      | none =>
        simp only [h1] at h
        cases d1 with
        | true =>
          simp only [if_true, Option.some.injEq] at h
          subst h
          exact a1
        | false =>
          simp only [Bool.false_eq_true, if_false] at h
          rw [ih g1 false sc h, a1]

/-- The analysis keeps the type name and sets the package name of the file. -/
theorem parseAst_names (g g' : Generator) (file : File) (err : Option GenError)
    (hAst : g.Ast = some file) (h : parseAst g = some (g', err)) :
    g'.TypeName = g.TypeName ∧ g'.PackageName = file.Name := by
  rw [parseAst_eq g file hAst] at h
  cases hp : parseDecls { g with PackageName := file.Name } false file.Decls with
  | none => simp [hp] at h
  | some sc =>
    have a1 := (parseDecls_outcome file.Decls _ false sc hp).1
    have a2 := parseDecls_package file.Decls _ false sc hp
    obtain ⟨g2, d2, e2⟩ := sc
    simp only at a1 a2
    have hg : g' = g2 := by
      cases e2 with
      | some e =>
        simp only [hp, Option.some.injEq, Prod.mk.injEq] at h
        exact h.1.symm
      | none =>
        simp only [hp] at h
        split at h
        · simp only [Option.some.injEq, Prod.mk.injEq] at h; exact h.1.symm
        · split at h <;>
            (simp only [Option.some.injEq, Prod.mk.injEq] at h; exact h.1.symm)
    rw [hg]
    exact ⟨a1, a2⟩

theorem mapLookup_of_mem (m : StrMap) (hnd : (mapKeys m).Nodup) (entry : String × String)
    (h : entry ∈ m) : mapLookup m entry.1 = some entry.2 := by
  induction m with
  | nil => simp at h
  | cons p rest ih =>
    obtain ⟨k, v⟩ := p
    have hnd' : k ∉ mapKeys rest ∧ (mapKeys rest).Nodup := by
      simpa [mapKeys] using hnd
    rcases List.mem_cons.1 h with rfl | hm
    · simp [mapLookup]
    · have hne : k ≠ entry.1 := by
        intro e
        exact hnd'.1 (by rw [e]; exact List.mem_map.2 ⟨entry, hm, rfl⟩)
      simp only [mapLookup, hne, if_false]
      exact ih hnd'.2 hm

/-! ### The import table built by `parseAst` -/

/-- Entering the imports `imports` in the table `m`, in order. -/
theorem recordImport_entry (g : Generator) (spec : ImportSpec) :
    recordImport g spec =
      { g with ParsedImports := mapStore g.ParsedImports (importKey spec) (importClause spec) } := by
  obtain ⟨name, path⟩ := spec
  cases path <;> cases name with
  | none => simp [recordImport, getImport, importKey, importClause, explicitAlias]
  | some a =>
    by_cases h1 : a = "_"
    · subst h1
      simp [recordImport, getImport, importKey, importClause, explicitAlias]
    · by_cases h2 : a = ""
      · subst h2
        simp [recordImport, getImport, importKey, importClause, explicitAlias]
      · simp [recordImport, getImport, importKey, importClause, explicitAlias, h1, h2]

theorem parseImportSpecs_table (specs : List Spec) : ∀ g : Generator,
    parseImportSpecs g specs =
      { g with ParsedImports := ((importSpecsIn specs).foldl
          (fun m spec => mapStore m (importKey spec) (importClause spec)) g.ParsedImports) } := by
  induction specs with
  | nil => intro g; rfl
  | cons s rest ih =>
    intro g
    rw [parseImportSpecs_cons]
    cases s with
    | importSpec i =>
      simp only [importSpecsIn, List.foldl_cons]
      rw [ih, recordImport_entry]
    | typeSpec n t => simp only [importSpecsIn]; exact ih g
    | valueSpec => simp only [importSpecsIn]; exact ih g

theorem parseTypeSpec_table (g : Generator) (defFound : Bool) (spec : Spec) (sc : Scan)
    (h : parseTypeSpec g defFound spec = some sc) :
    sc.g.ParsedImports = g.ParsedImports ∧ sc.g.SourceFile = g.SourceFile ∧
      sc.g.OutputFileName = g.OutputFileName := by
  rcases namedTypeSpecs_single g.TypeName spec with h0 | ⟨t0, rfl, _⟩
  · rw [parseTypeSpec_other g defFound spec h0, Option.some.injEq] at h
    subst h; exact ⟨rfl, rfl, rfl⟩
  · cases ht : t0.isStruct with
    | false =>
      rw [parseTypeSpec_not_struct g defFound t0 ht, Option.some.injEq] at h
      subst h; exact ⟨rfl, rfl, rfl⟩
    | true =>
      cases t0 with
      | structType fields =>
        rw [parseTypeSpec_struct] at h
        cases hp : parseFields g fields with
        | none => simp [hp] at h
        | some g1 =>
          simp only [hp, Option.map_some', Option.some.injEq] at h
          subst h
          obtain ⟨_, a2, _, _, a5, a6, _⟩ := parseFields_some fields g g1 hp
          exact ⟨a2, a5, a6⟩
      | starExpr _ => simp [Expr.isStruct] at ht
      | selectorExpr _ _ => simp [Expr.isStruct] at ht
      | funcType _ _ => simp [Expr.isStruct] at ht
      | ident _ => simp [Expr.isStruct] at ht
      | otherExpr => simp [Expr.isStruct] at ht

theorem parseTypeSpecs_table (specs : List Spec) : ∀ (g : Generator) (defFound : Bool)
    (sc : Scan), parseTypeSpecs g defFound specs = some sc →
      sc.g.ParsedImports = g.ParsedImports ∧ sc.g.SourceFile = g.SourceFile ∧
        sc.g.OutputFileName = g.OutputFileName := by
  induction specs with
  | nil =>
    intro g d sc h
    simp only [parseTypeSpecs, Option.some.injEq] at h
    subst h; exact ⟨rfl, rfl, rfl⟩
  | cons s rest ih =>
    intro g d sc h
    rw [parseTypeSpecs_cons] at h
    cases h1 : parseTypeSpec g d s with
    | none => simp [h1] at h
    | some sc1 =>
      obtain ⟨g1, d1, e1⟩ := sc1
      have a1 := parseTypeSpec_table g d s _ h1
      simp only at a1
      cases e1 with
      | some e =>
        simp only [h1, Option.some.injEq] at h
        subst h
        exact a1
      | none =>
        simp only [h1] at h
        obtain ⟨b1, b2, b3⟩ := ih g1 d1 sc h
        exact ⟨b1.trans a1.1, b2.trans a1.2.1, b3.trans a1.2.2⟩

theorem parseDecl_table (g : Generator) (defFound : Bool) (decl : Decl) (sc : Scan)
    (h : parseDecl g defFound decl = some sc) :
    sc.g.ParsedImports = (declImports decl).foldl
        (fun m spec => mapStore m (importKey spec) (importClause spec)) g.ParsedImports ∧
      sc.g.SourceFile = g.SourceFile ∧ sc.g.OutputFileName = g.OutputFileName := by
  cases decl with
  | funcDecl => simp only [parseDecl, Option.some.injEq] at h; subst h; exact ⟨rfl, rfl, rfl⟩
  | badDecl => simp only [parseDecl, Option.some.injEq] at h; subst h; exact ⟨rfl, rfl, rfl⟩
  | genDecl tok specs =>
    cases tok with
    | TYPE =>
      rw [parseDecl_genDecl_type] at h
      simpa [declImports] using parseTypeSpecs_table specs g defFound sc h
    | IMPORT =>
      simp only [parseDecl, Token.String, if_true] at h
      simp only [show ¬ ("import" = "type") by decide, if_false, Option.some.injEq] at h
      subst h
      simp only [declImports, if_true]
      rw [parseImportSpecs_table]
      exact ⟨rfl, rfl, rfl⟩
    | CONST =>
      simp only [parseDecl, Token.String, show ¬ ("const" = "import") by decide,
        show ¬ ("const" = "type") by decide, if_false, Option.some.injEq] at h
      subst h
      exact ⟨rfl, rfl, rfl⟩
    | VAR =>
      simp only [parseDecl, Token.String, show ¬ ("var" = "import") by decide,
        show ¬ ("var" = "type") by decide, if_false, Option.some.injEq] at h
      subst h
      exact ⟨rfl, rfl, rfl⟩

theorem declImports_of_declaring (name : String) (decl : Decl)
    (h : namedTypes name [decl] ≠ []) : declImports decl = [] := by
  obtain ⟨specs, rfl, _⟩ := namedTypes_single_ne_nil name decl h
  rfl

theorem importsBefore_cons_of_declaring (name : String) (decl : Decl) (rest : List Decl)
    (h : namedTypes name [decl] ≠ []) : importsBefore name (decl :: rest) = [] := by
  have : (namedTypes name [decl]).isEmpty = false := by
    cases hn : namedTypes name [decl] with
    | nil => exact absurd hn h
    | cons a l => rfl
  simp [importsBefore, this]

theorem importsBefore_cons_of_other (name : String) (decl : Decl) (rest : List Decl)
    (h : namedTypes name [decl] = []) :
    importsBefore name (decl :: rest) = declImports decl ++ importsBefore name rest := by
  simp [importsBefore, h]

theorem parseDecls_table (decls : List Decl) : ∀ (g : Generator) (sc : Scan),
    parseDecls g false decls = some sc →
      sc.g.ParsedImports = (importsBefore g.TypeName decls).foldl
          (fun m spec => mapStore m (importKey spec) (importClause spec)) g.ParsedImports ∧
        sc.g.SourceFile = g.SourceFile ∧ sc.g.OutputFileName = g.OutputFileName := by
  induction decls with
  | nil =>
    intro g sc h
    simp only [parseDecls, Option.some.injEq] at h
    subst h
    exact ⟨rfl, rfl, rfl⟩
  | cons d rest ih =>
    intro g sc h
    rw [parseDecls_cons] at h
    cases h1 : parseDecl g false d with
    | none => simp [h1] at h
    | some sc1 =>
      obtain ⟨g1, d1, e1⟩ := sc1
      obtain ⟨t1, t2, t3⟩ := parseDecl_table g false d _ h1
      obtain ⟨a1, _, _, a4⟩ := parseDecl_outcome g false d _ h1
      dsimp only at t1 t2 t3 a1 a4
      by_cases h0 : namedTypes g.TypeName [d] = []
      · obtain ⟨g2, _, he⟩ := parseDecl_other g false d h0
        have h1' := h1
        rw [he, Option.some.injEq] at h1'
        have hd : false = d1 := congrArg Scan.defFound h1'
        have hee : none = e1 := congrArg Scan.err h1'
        subst hd; subst hee
        simp only [h1, Bool.false_eq_true, if_false] at h
        obtain ⟨b1, b2, b3⟩ := ih g1 sc h
        rw [importsBefore_cons_of_other _ _ _ h0, List.foldl_append, ← t1, ← a1]
        exact ⟨b1, b2.trans t2, b3.trans t3⟩
      · have hd : d1 = true := a4 h0
        subst hd
        rw [importsBefore_cons_of_declaring _ _ _ h0]
        rw [declImports_of_declaring _ _ h0] at t1
        cases e1 with
        | some e =>
          simp only [h1, Option.some.injEq] at h
          subst h
          exact ⟨t1, t2, t3⟩
        | none =>
          simp only [h1, if_true, Option.some.injEq] at h
          subst h
          exact ⟨t1, t2, t3⟩

/-- The import table after `parseAst`, whatever it returns: the imports that
stand before the declaration of the type, entered in order. -/
theorem parseAst_table (g g' : Generator) (file : File) (err : Option GenError)
    (hAst : g.Ast = some file) (h : parseAst g = some (g', err)) :
    g'.ParsedImports = (importsBefore g.TypeName file.Decls).foldl
        (fun m spec => mapStore m (importKey spec) (importClause spec)) g.ParsedImports ∧
      g'.SourceFile = g.SourceFile ∧ g'.OutputFileName = g.OutputFileName := by
  rw [parseAst_eq g file hAst] at h
  cases hp : parseDecls { g with PackageName := file.Name } false file.Decls with
  | none => simp [hp] at h
  | some sc =>
    have a := parseDecls_table file.Decls _ sc hp
    obtain ⟨g2, d2, e2⟩ := sc
    simp only at a
    have hg : g' = g2 := by
      cases e2 with
      | some e =>
        simp only [hp, Option.some.injEq, Prod.mk.injEq] at h
        exact h.1.symm
      | none =>
        simp only [hp] at h
        split at h
        · simp only [Option.some.injEq, Prod.mk.injEq] at h; exact h.1.symm
        · split at h <;>
            (simp only [Option.some.injEq, Prod.mk.injEq] at h; exact h.1.symm)
    rw [hg]
    exact a

/-- Entries stored under other keys do not change the lookup of a key. -/
theorem mapLookup_foldl_other (imports : List ImportSpec) (k : String) : ∀ (m : StrMap),
    (∀ s ∈ imports, importKey s ≠ k) →
      mapLookup (imports.foldl (fun m spec => mapStore m (importKey spec) (importClause spec)) m) k =
        mapLookup m k := by
  induction imports with
  | nil => intro m _; rfl
  | cons s rest ih =>
    intro m h
    rw [List.foldl_cons, ih _ (fun x hx => h x (List.mem_cons_of_mem _ hx)), mapLookup_mapStore,
      if_neg (fun e => h s (List.mem_cons_self _ _) e.symm)]

/-- The last import with a key decides the entry of the key. -/
theorem mapLookup_foldl_last (pre post : List ImportSpec) (spec : ImportSpec) (m : StrMap)
    (h : ∀ s ∈ post, importKey s ≠ importKey spec) :
    mapLookup ((pre ++ spec :: post).foldl
        (fun m spec => mapStore m (importKey spec) (importClause spec)) m) (importKey spec) =
      some (importClause spec) := by
  rw [List.foldl_append, List.foldl_cons, mapLookup_foldl_other post _ _ h, mapLookup_mapStore,
    if_pos rfl]

/-! ### The field collection built by `parseAst` -/

theorem mapStore_of_not_mem (m : StrMap) (k v : String) (h : k ∉ mapKeys m) :
    mapStore m k v = m ++ [(k, v)] := by
  induction m with
  | nil => rfl
  | cons p rest ih =>
    obtain ⟨k', v'⟩ := p
    have h' : k' ≠ k ∧ k ∉ mapKeys rest := by
      constructor
      · intro e; exact h (by simp [mapKeys, e])
      · intro e; exact h (by simp [mapKeys] at e ⊢; exact Or.inr e)
    simp only [mapStore, h'.1, if_false, ih h'.2, List.cons_append]

theorem storeAll_append (names : List String) (v : String) : ∀ (m : StrMap),
    (mapKeys m ++ names).Nodup → storeAll m names v = m ++ names.map fun n => (n, v) := by
  induction names with
  | nil => intro m _; simp [storeAll_nil]
  | cons n rest ih =>
    intro m h
    have hn : n ∉ mapKeys m := by
      intro hmem
      exact (List.nodup_append.1 h).2.2 hmem (List.mem_cons_self _ _)
    rw [storeAll_cons, mapStore_of_not_mem m n v hn, ih]
    · simp
    · simpa [mapKeys] using h

theorem typeText_eq (g : Generator) (e : Expr) (s : String) (g' : Generator)
    (h : getFieldTypeString g e = some (s, g')) : typeText e = s := by
  have := getFieldTypeString_text_indep e (NewGenerator "" "" "") g
  unfold typeText
  rw [this, h]
  rfl

theorem parseFieldData_fields (g g' : Generator) (field : Field)
    (h : parseFieldData g field = some g') :
    g'.Fields = storeAll g.Fields field.names (typeText field.type) := by
  rw [parseFieldData_eq] at h
  cases hx : getFieldTypeString g field.type with
  | none => simp [hx] at h
  | some p =>
    obtain ⟨s, g1⟩ := p
    obtain ⟨l, hl⟩ := getFieldTypeString_frame _ _ _ _ hx
    simp only [hx, Option.map_some', Option.some.injEq] at h
    rw [← h, typeText_eq g field.type s g1 hx, hl]

theorem mapKeys_fieldPairs (fields : List Field) : mapKeys (fieldPairs fields) = fieldNames fields := by
  induction fields with
  | nil => rfl
  | cons f rest ih =>
    unfold mapKeys at ih ⊢
    simp [fieldPairs, fieldNames, ih, Function.comp_def]

theorem parseFields_fields (fields : List Field) : ∀ (g g' : Generator),
    parseFields g fields = some g' → (mapKeys g.Fields ++ fieldNames fields).Nodup →
      g'.Fields = g.Fields ++ fieldPairs fields := by
  induction fields with
  | nil =>
    intro g g' h _
    simp only [parseFields, Option.some.injEq] at h
    subst h
    simp [fieldPairs]
  | cons f rest ih =>
    intro g g' h hnd
    rw [parseFields] at h
    cases hf : parseFieldData g f with
    | none => simp [hf] at h
    | some g1 =>
      simp only [hf] at h
      have hnd' : (mapKeys g.Fields ++ f.names ++ fieldNames rest).Nodup := by
        simpa [fieldNames, List.append_assoc] using hnd
      have h1 : g1.Fields = g.Fields ++ f.names.map fun n => (n, typeText f.type) := by
        rw [parseFieldData_fields g g1 f hf]
        exact storeAll_append _ _ _ (List.Nodup.of_append_left hnd')
      have hk : mapKeys g1.Fields = mapKeys g.Fields ++ f.names := by
        rw [h1]
        simp [mapKeys, Function.comp_def]
      rw [ih g1 g' h (by rw [hk]; exact hnd'), h1]
      simp [fieldPairs]

theorem parseFields_returns (fields : List Field) : ∀ (g : Generator),
    (∀ f ∈ fields, reconstructs f.type = true) → ∃ g', parseFields g fields = some g' := by
  induction fields with
  | nil => intro g _; exact ⟨g, rfl⟩
  | cons f rest ih =>
    intro g hok
    have h1 := getFieldTypeString_isSome f.type g
    rw [hok f (List.mem_cons_self _ _)] at h1
    obtain ⟨p, hp⟩ := Option.isSome_iff_exists.1 h1
    obtain ⟨g', h'⟩ := ih { p.2 with Fields := storeAll p.2.Fields f.names p.1 }
      fun x hx => hok x (List.mem_cons_of_mem _ hx)
    exact ⟨g', by rw [parseFields, parseFieldData_eq, hp]; exact h'⟩

/-- The analysis of a file whose only declaration of the requested type is a
struct with uniquely named fields, by a new generator: it returns without error,
with the fields, the referenced namespaces and the import table of the file. -/
theorem parseAst_of_struct (g : Generator) (file : File) (fields : List Field)
    (hAst : g.Ast = some file) (hImports : g.ParsedImports = [])
    (hNeeded : g.NeededImports = []) (hFields : g.Fields = [])
    (hdecl : namedTypes g.TypeName file.Decls = [.structType fields])
    (hnames : (fieldNames fields).Nodup) (hsome : fieldNames fields ≠ [])
    (hwf : ∀ f ∈ fields, HeadOk f.type = true)
    (hrec : ∀ f ∈ fields, reconstructs f.type = true) :
    ∃ g', parseAst g = some (g', none) ∧
      g'.Fields = fieldPairs fields ∧
      g'.NeededImports = referenced fields ∧
      g'.ParsedImports = tableOf (importsBefore g.TypeName file.Decls) ∧
      g'.TypeName = g.TypeName ∧ g'.PackageName = file.Name ∧
      g'.SourceFile = g.SourceFile ∧ g'.OutputFileName = g.OutputFileName := by
  obtain ⟨g1, _, hN, hF, he⟩ := parseAst_struct g file fields hAst hdecl
  obtain ⟨g', hp⟩ := parseFields_returns fields g1 hrec
  have hfields : g'.Fields = fieldPairs fields := by
    have := parseFields_fields fields g1 g' hp (by rw [hF, hFields]; simpa [mapKeys] using hnames)
    rw [this, hF, hFields, List.nil_append]
  have hne : g'.Fields.length ≠ 0 := by
    intro h0
    have : g'.Fields = [] := List.length_eq_zero.1 h0
    rw [hfields] at this
    have hk := mapKeys_fieldPairs fields
    rw [this] at hk
    exact hsome hk.symm
  have hok : parseAst g = some (g', none) := by
    rw [he, hp]
    simp only [Option.map_some', if_neg hne]
  obtain ⟨t1, t2, t3⟩ := parseAst_table g g' file none hAst hok
  obtain ⟨n1, n2⟩ := parseAst_names g g' file none hAst hok
  refine ⟨g', hok, hfields, ?_, ?_, n1, n2, t2, t3⟩
  · rw [parseFields_needed fields g1 g' hwf hp, hN, hNeeded, List.nil_append]
    rfl
  · rw [t1, hImports]
    rfl

/-! ### The run as a whole -/

theorem save_congr (env : Env) (g g' : Generator) (text : String)
    (h1 : g'.SourceFile = g.SourceFile) (h2 : g'.OutputFileName = g.OutputFileName) :
    save env g' text = save env g text := by
  unfold save
  rw [h1, h2]

/-- A run whose parser returns a file with a package name and whose analysis
returns no error hands the text of the emitter to `save`. -/
theorem Generate_of_parseAst (env : Env) (g g' : Generator) (file : File)
    (hparse : env.ParseFile g.SourceFile = .ok file) (hname : file.Name ≠ "")
    (hok : parseAst { g with Ast := some file } = some (g', none)) :
    Generate env g =
      some (g', (save env g (generateOutput env.caser (env.rangeOrder g'.Fields) g')).1,
        (save env g (generateOutput env.caser (env.rangeOrder g'.Fields) g')).2) := by
  obtain ⟨_, t2, t3⟩ := parseAst_table _ g' file none rfl hok
  have hs := save_congr env g g' (generateOutput env.caser (env.rangeOrder g'.Fields) g') t2 t3
  unfold Generate getAst
  simp only [hparse, hname, if_false, hok, generateAndSave, hs]

theorem importClauses_lines (g : Generator) :
    (importClauses g).map (fun c => importLine c.2) =
      (g.NeededImports.filterMap fun ns => mapLookup g.ParsedImports ns).map importLine := by
  unfold importClauses
  induction g.NeededImports with
  | nil => rfl
  | cons a l ih =>
    cases h : mapLookup g.ParsedImports a with
    | none => simp only [List.filterMap_cons, h, Option.map_none']; exact ih
    | some c => simp only [List.filterMap_cons, h, Option.map_some', List.map_cons, ih]

/-- The text of the emitter with the import block read off the referenced
namespaces and the import table. -/
theorem generateOutput_text (caser : String → String) (order : StrMap) (g : Generator) :
    generateOutput caser order g =
      "package " ++ g.PackageName ++ "\n\n" ++
      String.join ((g.NeededImports.filterMap fun ns =>
        mapLookup g.ParsedImports ns).map importLine) ++
      builderDecl (g.TypeName ++ "Builder") g.TypeName ++
      String.join (order.map (setterMethod caser (g.TypeName ++ "Builder"))) ++
      accessorP (g.TypeName ++ "Builder") g.TypeName ++
      accessorV (g.TypeName ++ "Builder") g.TypeName := by
  rw [generateOutput_sections, importClauses_lines]

theorem mapLookup_foldl_congr (imports : List ImportSpec) (k : String) : ∀ (m1 m2 : StrMap),
    mapLookup m1 k = mapLookup m2 k →
      mapLookup (imports.foldl
          (fun m spec => mapStore m (importKey spec) (importClause spec)) m1) k =
        mapLookup (imports.foldl
          (fun m spec => mapStore m (importKey spec) (importClause spec)) m2) k := by
  induction imports with
  | nil => intro m1 m2 h; exact h
  | cons s rest ih =>
    intro m1 m2 h
    rw [List.foldl_cons, List.foldl_cons]
    apply ih
    rw [mapLookup_mapStore, mapLookup_mapStore, h]

/-- An import changes the entry of no key but its own. -/
theorem mapLookup_foldl_without (pre post : List ImportSpec) (spec : ImportSpec) (m : StrMap)
    (k : String) (hk : k ≠ importKey spec) :
    mapLookup ((pre ++ spec :: post).foldl
        (fun m spec => mapStore m (importKey spec) (importClause spec)) m) k =
      mapLookup ((pre ++ post).foldl
        (fun m spec => mapStore m (importKey spec) (importClause spec)) m) k := by
  rw [List.foldl_append, List.foldl_append, List.foldl_cons]
  apply mapLookup_foldl_congr
  rw [mapLookup_mapStore, if_neg hk]

theorem Trim_of_ends (s : String) (a b : Char) (mid : List Char)
    (hs : s.data = a :: (mid ++ [b])) (ha : a ≠ '\"') (hb : b ≠ '\"') : Trim s "\"" = s := by
  unfold Trim
  apply String.ext
  have h1 : (a :: (mid ++ [b])).dropWhile (fun c => ("\"" : String).data.contains c) =
      a :: (mid ++ [b]) := dropWhile_of_head_false _ a _ (by simp [ha])
  have h2 : (a :: (mid ++ [b])).reverse = b :: (a :: mid).reverse := by simp
  simp only [hs, h1, h2]
  rw [dropWhile_of_head_false _ b _ (by simp [hb])]
  simp

theorem Trim_raw (body : String) : Trim ("`" ++ body ++ "`") "\"" = "`" ++ body ++ "`" :=
  Trim_of_ends _ '`' '`' body.data (by simp [String.data_append]) (by decide) (by decide)

/-! ## The claims -/

set_option maxRecDepth 8192

/-- C1, counterexample. The source file
`package user; import "net/http"; type User struct { client http.Client }`
uses only a namespace that it imports, and generation succeeds; the import
table has the one key `net/http`, the referenced namespace is `http`, and the
generated text has the setter of type `http.Client` and no import clause. -/
theorem unaliased_path_import_missing :
    ∃ g', parseAst (analysisOf fileNetHttp "User") = some (g', none) ∧
      g'.ParsedImports = [("net/http", "\"net/http\"")] ∧
      g'.NeededImports = ["http"] ∧
      importClauses g' = [] ∧
      generateOutput titleCaser g'.Fields g' =
        "package user\n\n\ntype UserBuilder struct \x7b\n\tinstance *User\n" ++
        "\x7d\n\t\t\nfunc UserBuild() *UserBuilder \x7b\n" ++
        "\treturn &UserBuilder \x7b\n\t\tinstance: &User\x7b\x7d,\n\t\x7d\n" ++
        "\x7d\n" ++
        "func (b *UserBuilder) Client (client http.Client) *UserBuilder \x7b\n" ++
        "\tb.instance.client = client\n\treturn b\n\x7d\n\n" ++
        "func (b *UserBuilder) P() *User \x7b\n\treturn b.instance\n\x7d\n\t\n" ++
        "func (b *UserBuilder) V() User \x7b\n\treturn *b.instance\n\x7d\n" :=
  ⟨_, rfl, by decide, by decide, by decide, by decide⟩

/-- C1, amended. For every source file whose only declaration of the requested
type is a struct, whenever the analysis succeeds: every namespace `ns` that
qualifies the type of a field directly or behind pointers (`ns.T`, `*ns.T`) and
is a key of the import table (an explicit alias other than `_`, or the path text
without its quotes of an import with no alias) has its import clause in the
emitted import block, and the line `import <clause>` is part of the generated
text. Nothing is said about qualified types inside function types. -/
theorem qualified_field_import_emitted (g g' : Generator) (file : File)
    (fields : List Field) (hAst : g.Ast = some file)
    (hdecl : namedTypes g.TypeName file.Decls = [.structType fields])
    (hok : parseAst g = some (g', none))
    (f : Field) (hf : f ∈ fields) (ns : String) (hq : qualifierOf f.type = some ns)
    (clause : String) (hkey : mapLookup g'.ParsedImports ns = some clause) :
    (ns, clause) ∈ importClauses g' ∧
    ∀ (caser : String → String) (order : StrMap),
      ∃ before after, generateOutput caser order g' = before ++ importLine clause ++ after := by
  obtain ⟨g1, _, _, hp⟩ := parseAst_struct_ok g g' file fields hAst hdecl hok
  have hmem : (ns, clause) ∈ importClauses g' :=
    mem_importClauses g' ns clause (parseFields_needed_mem fields g1 g' hp f hf ns hq) hkey
  refine ⟨hmem, fun caser order => ?_⟩
  obtain ⟨a, b, hab⟩ := join_mem_split ((importClauses g').map fun c => importLine c.2)
    (importLine clause) (List.mem_map.2 ⟨(ns, clause), hmem, rfl⟩)
  rw [generateOutput_sections, hab]
  exact ⟨"package " ++ g'.PackageName ++ "\n\n" ++ a,
    b ++ builderDecl (g'.TypeName ++ "Builder") g'.TypeName ++
      String.join (order.map (setterMethod caser (g'.TypeName ++ "Builder"))) ++
      accessorP (g'.TypeName ++ "Builder") g'.TypeName ++
      accessorV (g'.TypeName ++ "Builder") g'.TypeName,
    by simp only [String.append_assoc]⟩

/-- C1, witness: the source file
`package event; import "time"; type Event struct { start time.Time; stop *time.Time }`
and its field `stop`. -/
theorem qualified_field_import_emitted_witness :
    ∃ g', parseAst (analysisOf fileTime "Event") = some (g', none) ∧
      ("time", "\"time\"") ∈ importClauses g' :=
  ⟨_, rfl, (qualified_field_import_emitted (analysisOf fileTime "Event") _ fileTime fieldsTime
    rfl rfl rfl (.mk ["stop"] (.starExpr (.selectorExpr (.ident "time") "Time")))
    (by simp [fieldsTime]) "time" rfl "\"time\"" rfl).1⟩

/-- C2, counterexample. In the source file
`package event; import "time"; type Event struct { start time.Time; stop *time.Time }`
two fields have a qualified type of the namespace `time`, a key of the import
table, and the generated text has two import clauses for `time`, not one. -/
theorem duplicate_import_clauses :
    ∃ g', parseAst (analysisOf fileTime "Event") = some (g', none) ∧
      mapLookup g'.ParsedImports "time" = some "\"time\"" ∧
      importClauses g' = [("time", "\"time\""), ("time", "\"time\"")] ∧
      generateOutput titleCaser g'.Fields g' =
        "package event\n\nimport \"time\"\nimport \"time\"\n\n" ++
        "type EventBuilder struct \x7b\n\tinstance *Event\n\x7d\n\t\t\n" ++
        "func EventBuild() *EventBuilder \x7b\n\treturn &EventBuilder \x7b\n" ++
        "\t\tinstance: &Event\x7b\x7d,\n\t\x7d\n\x7d\n" ++
        "func (b *EventBuilder) Start (start time.Time) *EventBuilder \x7b\n" ++
        "\tb.instance.start = start\n\treturn b\n\x7d\n\n" ++
        "func (b *EventBuilder) Stop (stop *time.Time) *EventBuilder \x7b\n" ++
        "\tb.instance.stop = stop\n\treturn b\n\x7d\n\n" ++
        "func (b *EventBuilder) P() *Event \x7b\n\treturn b.instance\n\x7d\n" ++
        "\t\nfunc (b *EventBuilder) V() Event \x7b\n\treturn *b.instance\n" ++
        "\x7d\n" :=
  ⟨_, rfl, by decide, by decide, by decide⟩

/-- C2, amended. For every struct (the only declaration of the requested type,
analysed by a generator with no referenced namespace yet, its field types as
the parser builds them) in which d field declarations have a qualified type of
the same namespace `ns`, directly or behind pointers, and `ns` is a key of the import
table, the generated output contains exactly d import clauses for `ns`,
one for each such declaration and all with the clause text of the table,
whatever the number k of fields these declarations declare (a declaration
`a, b ns.T` of two fields and an embedded field `ns.T` count once each): exactly
one only when d = 1. The import block of the generated text is the list of the
emitted clauses, one line `import <clause>` each. -/
theorem import_clause_per_declaration (g g' : Generator) (file : File)
    (fields : List Field) (hAst : g.Ast = some file) (hFresh : g.NeededImports = [])
    (hdecl : namedTypes g.TypeName file.Decls = [.structType fields])
    (hwf : ∀ f ∈ fields, HeadOk f.type = true)
    (hok : parseAst g = some (g', none))
    (ns clause : String) (hkey : mapLookup g'.ParsedImports ns = some clause) :
    (∀ (caser : String → String) (order : StrMap),
      generateOutput caser order g' =
        "package " ++ g'.PackageName ++ "\n\n" ++
        String.join ((importClauses g').map fun c => "import " ++ c.2 ++ "\n") ++
        builderDecl (g'.TypeName ++ "Builder") g'.TypeName ++
        String.join (order.map (setterMethod caser (g'.TypeName ++ "Builder"))) ++
        accessorP (g'.TypeName ++ "Builder") g'.TypeName ++
        accessorV (g'.TypeName ++ "Builder") g'.TypeName) ∧
    (importClauses g').count (ns, clause) =
        fields.countP (fun f => decide (qualifierOf f.type = some ns)) ∧
    ∀ c ∈ importClauses g', c.1 = ns → c = (ns, clause) := by
  obtain ⟨g1, hN, _, hp⟩ := parseAst_struct_ok g g' file fields hAst hdecl hok
  have hneeded := parseFields_needed fields g1 g' hwf hp
  rw [hN, hFresh, List.nil_append] at hneeded
  refine ⟨fun caser order => generateOutput_sections caser order g', ?_, ?_⟩
  · rw [count_importClauses g' ns clause hkey, hneeded, count_qualifiers]
  · intro c hc hns
    have h2 := (importClauses_fst g' c hc).2
    rw [hns, hkey, Option.some.injEq] at h2
    exact Prod.ext hns h2.symm

/-- C2, witness: the source file
`package span; import "time"; type Span struct { a, b time.Time; c *time.Time }`,
where k = 3 fields in d = 2 declarations give two clauses. -/
theorem import_clause_per_declaration_witness :
    ∃ g', parseAst (analysisOf fileGrouped "Span") = some (g', none) ∧
      (importClauses g').count ("time", "\"time\"") =
        fieldsGrouped.countP (fun f => decide (qualifierOf f.type = some "time")) ∧
      fieldsGrouped.countP (fun f => decide (qualifierOf f.type = some "time")) = 2 ∧
      (fieldNames fieldsGrouped).length = 3 :=
  ⟨_, rfl, (import_clause_per_declaration (analysisOf fileGrouped "Span") _ fileGrouped
    fieldsGrouped rfl rfl rfl (by decide) rfl "time" "\"time\"" rfl).2.1, by decide, by decide⟩

/-- C3, counterexample. The source file
`package p; import _ "foo"; type T struct { x foo.T }` has one import, with the
blank alias, and a field whose qualified type names the namespace `foo`, the
text of the import path; the generated text has the import clause
`import "foo"`. -/
theorem blank_import_emitted :
    ∃ g', parseAst (analysisOf fileBlank "T") = some (g', none) ∧
      g'.ParsedImports = [("foo", "\"foo\"")] ∧
      importClauses g' = [("foo", "\"foo\"")] ∧
      generateOutput titleCaser g'.Fields g' =
        "package p\n\nimport \"foo\"\n\ntype TBuilder struct \x7b\n" ++
        "\tinstance *T\n\x7d\n\t\t\nfunc TBuild() *TBuilder \x7b\n" ++
        "\treturn &TBuilder \x7b\n\t\tinstance: &T\x7b\x7d,\n\t\x7d\n\x7d\n" ++
        "func (b *TBuilder) X (x foo.T) *TBuilder \x7b\n\tb.instance.x = x\n" ++
        "\treturn b\n\x7d\n\nfunc (b *TBuilder) P() *T \x7b\n" ++
        "\treturn b.instance\n\x7d\n\t\nfunc (b *TBuilder) V() T \x7b\n" ++
        "\treturn *b.instance\n\x7d\n" :=
  ⟨_, rfl, by decide, by decide, by decide⟩

/-- C3, amended. For every source file, an import declared with the blank alias
`_` and the path literal `p` is entered in the import table as an import
without alias is: under the key `p` without its leading and trailing `"`, with
the bare clause text `p`. Unless a later import has the same key, the generated
output contains the clause `import p` once for each field declaration whose
qualified type (directly or behind pointers) has a namespace textually equal to
that key, so `import _ "foo"` with one field of type `foo.T` emits
`import "foo"` once; no clause is emitted for that key when no field
references it. The
struct is the only declaration of the requested type, analysed by a generator
with no referenced namespace yet, its field types as the parser builds them. -/
theorem blank_import_emitted_when_referenced (g g' : Generator) (file : File)
    (fields : List Field) (hAst : g.Ast = some file) (hFresh : g.NeededImports = [])
    (hdecl : namedTypes g.TypeName file.Decls = [.structType fields])
    (hwf : ∀ f ∈ fields, HeadOk f.type = true)
    (hok : parseAst g = some (g', none))
    (pre post : List ImportSpec) (p : String)
    (himports : importsBefore g.TypeName file.Decls = pre ++ ⟨some "_", some p⟩ :: post)
    (hlast : ∀ s ∈ post, importKey s ≠ Trim p "\"") :
    mapLookup g'.ParsedImports (Trim p "\"") = some p ∧
    (importClauses g').count (Trim p "\"", p) =
      fields.countP (fun f => decide (qualifierOf f.type = some (Trim p "\""))) ∧
    (∀ c ∈ importClauses g', c.1 = Trim p "\"" → c.2 = p) ∧
    ∀ (caser : String → String) (order : StrMap),
      generateOutput caser order g' =
        "package " ++ g'.PackageName ++ "\n\n" ++
        String.join ((importClauses g').map fun c => "import " ++ c.2 ++ "\n") ++
        builderDecl (g'.TypeName ++ "Builder") g'.TypeName ++
        String.join (order.map (setterMethod caser (g'.TypeName ++ "Builder"))) ++
        accessorP (g'.TypeName ++ "Builder") g'.TypeName ++
        accessorV (g'.TypeName ++ "Builder") g'.TypeName := by
  have hk : importKey ⟨some "_", some p⟩ = Trim p "\"" := by
    simp [importKey, explicitAlias]
  have hc : importClause ⟨some "_", some p⟩ = p := by
    simp [importClause, explicitAlias]
  have hkey : mapLookup g'.ParsedImports (Trim p "\"") = some p := by
    rw [(parseAst_table g g' file none hAst hok).1, himports, ← hk]
    rw [mapLookup_foldl_last pre post ⟨some "_", some p⟩ g.ParsedImports
      (fun s hs => by rw [hk]; exact hlast s hs), hc]
  obtain ⟨g1, hN, _, hp⟩ := parseAst_struct_ok g g' file fields hAst hdecl hok
  have hneeded := parseFields_needed fields g1 g' hwf hp
  rw [hN, hFresh, List.nil_append] at hneeded
  refine ⟨hkey, ?_, ?_, fun caser order => generateOutput_sections caser order g'⟩
  · rw [count_importClauses g' _ p hkey, hneeded, count_qualifiers]
  · intro c hc hns
    have h2 := (importClauses_fst g' c hc).2
    rw [hns, hkey, Option.some.injEq] at h2
    exact h2.symm

/-- C3, witness: the source file
`package p; import _ "foo"; type T struct { x foo.T }`, whose one field
references the key `foo` of the blank import. -/
theorem blank_import_emitted_when_referenced_witness :
    ∃ g', parseAst (analysisOf fileBlank "T") = some (g', none) ∧
      Trim "\"foo\"" "\"" = "foo" ∧
      mapLookup g'.ParsedImports (Trim "\"foo\"" "\"") = some "\"foo\"" ∧
      (importClauses g').count (Trim "\"foo\"" "\"", "\"foo\"") = 1 :=
  have h := blank_import_emitted_when_referenced (analysisOf fileBlank "T") _ fileBlank
    [.mk ["x"] (.selectorExpr (.ident "foo") "T")] rfl rfl rfl (by decide) rfl [] []
    "\"foo\"" rfl (by simp)
  ⟨_, rfl, by decide, h.1, h.2.1.trans (by decide)⟩

/-- C4, counterexample. The struct `type Pair struct { foo int; Foo int }` has
two fields whose names differ as strings; the generated text has two setter
methods and both have the method name `Foo`. -/
theorem setter_method_names_collide :
    ∃ g', parseAst (analysisOf fileCase "Pair") = some (g', none) ∧
      (fieldNames fieldsCase).Nodup ∧
      g'.Fields = [("foo", "int"), ("Foo", "int")] ∧
      (g'.Fields.map fun field => titleCaser field.1) = ["Foo", "Foo"] ∧
      generateOutput titleCaser g'.Fields g' =
        "package p\n\n\ntype PairBuilder struct \x7b\n\tinstance *Pair\n" ++
        "\x7d\n\t\t\nfunc PairBuild() *PairBuilder \x7b\n" ++
        "\treturn &PairBuilder \x7b\n\t\tinstance: &Pair\x7b\x7d,\n\t\x7d\n" ++
        "\x7d\n" ++
        "func (b *PairBuilder) Foo (foo int) *PairBuilder \x7b\n" ++
        "\tb.instance.foo = foo\n\treturn b\n\x7d\n\n" ++
        "func (b *PairBuilder) Foo (Foo int) *PairBuilder \x7b\n" ++
        "\tb.instance.Foo = Foo\n\treturn b\n\x7d\n\n" ++
        "func (b *PairBuilder) P() *Pair \x7b\n\treturn b.instance\n\x7d\n\t\n" ++
        "func (b *PairBuilder) V() Pair \x7b\n\treturn *b.instance\n\x7d\n" :=
  ⟨_, rfl, by decide, by decide, by decide, by decide⟩

/-- C4, amended. For every struct with N uniquely named fields (the only
declaration of the requested type, analysed by a generator with an empty field
collection), the generated output contains exactly N setter methods: the text
is the package clause, the import clauses, the builder type and constructor,
then one setter method for each entry of the order in which the run visits the
field collection (N entries, their names a permutation of the field names), then
the two accessors. The method name of the setter of a field is the title-cased
field name; the method names are pairwise distinct exactly when no two field
names have the same title-cased form. -/
theorem setter_methods_of_unique_fields (caser : String → String) (g g' : Generator)
    (file : File) (fields : List Field) (hAst : g.Ast = some file) (hFresh : g.Fields = [])
    (hdecl : namedTypes g.TypeName file.Decls = [.structType fields])
    (hnames : (fieldNames fields).Nodup)
    (hok : parseAst g = some (g', none))
    (order : StrMap) (horder : RangeOrder order g') :
    generateOutput caser order g' =
      "package " ++ g'.PackageName ++ "\n\n" ++
      String.join ((importClauses g').map fun c => importLine c.2) ++
      builderDecl (g'.TypeName ++ "Builder") g'.TypeName ++
      String.join (order.map fun field =>
        "\nfunc (b *" ++ (g'.TypeName ++ "Builder") ++ ") " ++ caser field.1 ++ " (" ++
          field.1 ++ " " ++ field.2 ++ ") *" ++ (g'.TypeName ++ "Builder") ++
          " \x7b\n\tb.instance." ++ field.1 ++ " = " ++ field.1 ++
          "\n\treturn b\n\x7d\n") ++
      accessorP (g'.TypeName ++ "Builder") g'.TypeName ++
      accessorV (g'.TypeName ++ "Builder") g'.TypeName ∧
    order.length = (fieldNames fields).length ∧
    (order.map Prod.fst).Perm (fieldNames fields) ∧
    ((order.map fun field => caser field.1).Nodup ↔
      ∀ a ∈ fieldNames fields, ∀ b ∈ fieldNames fields, caser a = caser b → a = b) := by
  obtain ⟨g1, _, hF, hp⟩ := parseAst_struct_ok g g' file fields hAst hdecl hok
  have hkeys : mapKeys g'.Fields = fieldNames fields := by
    have := parseFields_keys fields g1 g' hp (by rw [hF, hFresh]; simpa [mapKeys] using hnames)
    rw [this, hF, hFresh]
    simp [mapKeys]
  have hperm : (order.map Prod.fst).Perm (fieldNames fields) := by
    rw [← hkeys]
    exact List.Perm.map _ horder
  have h2 : (order.map fun field => caser field.1) = (order.map Prod.fst).map caser := by
    simp [Function.comp_def]
  refine ⟨generateOutput_sections caser order g', ?_, hperm, ?_⟩
  · have := hperm.length_eq
    simpa using this
  · rw [h2, (List.Perm.map caser hperm).nodup_iff]
    constructor
    · intro h a ha b hb hab
      exact List.inj_on_of_nodup_map h ha hb hab
    · intro h
      exact List.Nodup.map_on (fun a ha b hb hab => h a ha b hb hab) hnames

/-- C4, witness: the struct `Event` with the fields `start` and `stop`, N = 2,
in a run that visits the field collection in declaration order. -/
theorem setter_methods_of_unique_fields_witness :
    ∃ g', parseAst (analysisOf fileTime "Event") = some (g', none) ∧
      g'.Fields.length = (fieldNames fieldsTime).length ∧
      (fieldNames fieldsTime).length = 2 ∧
      (g'.Fields.map Prod.fst).Perm (fieldNames fieldsTime) :=
  ⟨_, rfl, (setter_methods_of_unique_fields titleCaser (analysisOf fileTime "Event") _ fileTime
    fieldsTime rfl rfl rfl (by decide) rfl _ (List.Perm.refl _)).2.1, by decide,
    (setter_methods_of_unique_fields titleCaser (analysisOf fileTime "Event") _ fileTime
    fieldsTime rfl rfl rfl (by decide) rfl _ (List.Perm.refl _)).2.2.1⟩

/-- C5. For every parsed file and requested type name: `parseAst` fails with
the type-not-found error exactly when no top-level type declaration has the
requested name, and then no field is extracted (the field collection and the
referenced namespaces are as before); and when the first top-level type
declaration with that name is not a struct type, `parseAst` fails with the
not-a-struct error, again with no field extracted. -/
theorem parseAst_lookup_errors (g : Generator) (file : File) (hAst : g.Ast = some file) :
    ((∃ g', parseAst g = some (g', some .typeNotFound)) ↔
        namedTypes g.TypeName file.Decls = []) ∧
    (∀ g', parseAst g = some (g', some .typeNotFound) →
        g'.Fields = g.Fields ∧ g'.NeededImports = g.NeededImports) ∧
    (∀ t more, namedTypes g.TypeName file.Decls = t :: more → t.isStruct = false →
        ∃ g', parseAst g = some (g', some (.notAStruct g.TypeName)) ∧
          g'.Fields = g.Fields ∧ g'.NeededImports = g.NeededImports) := by
  have hnone : namedTypes g.TypeName file.Decls = [] →
      ∃ g', parseAst g = some (g', some .typeNotFound) ∧
        g'.Fields = g.Fields ∧ g'.NeededImports = g.NeededImports := by
    intro h
    obtain ⟨g1, hs, he⟩ := parseDecls_none_named file.Decls { g with PackageName := file.Name } h
    exact ⟨g1, by rw [parseAst_eq g file hAst, he]; rfl, hs.2.2.1, hs.2.1⟩
  have hfound : ∀ g', parseAst g = some (g', some .typeNotFound) →
      namedTypes g.TypeName file.Decls = [] := by
    intro g' h
    by_contra hne
    rw [parseAst_eq g file hAst] at h
    cases hp : parseDecls { g with PackageName := file.Name } false file.Decls with
    | none => simp [hp] at h
    | some sc =>
      obtain ⟨g2, d2, e2⟩ := sc
      obtain ⟨_, a2, _, a4⟩ := parseDecls_outcome file.Decls _ false _ hp
      have hd : d2 = true := a4 hne
      subst hd
      cases e2 with
      | some e =>
        simp only [hp, Option.some.injEq, Prod.mk.injEq] at h
        rcases a2 with a2 | a2
        · simp at a2
        · simp only [Option.some.injEq] at a2
          rw [a2] at h
          simp at h
      | none =>
        simp only [hp, Bool.not_true, Bool.false_eq_true, if_false] at h
        split at h <;> simp at h
  refine ⟨⟨fun ⟨g', h⟩ => hfound g' h, fun h => ?_⟩, ?_, ?_⟩
  · obtain ⟨g', h1, _⟩ := hnone h
    exact ⟨g', h1⟩
  · intro g' h
    obtain ⟨g1, h1, h2, h3⟩ := hnone (hfound g' h)
    rw [h] at h1
    simp only [Option.some.injEq, Prod.mk.injEq, and_true] at h1
    subst h1
    exact ⟨h2, h3⟩
  · intro t more h ht
    obtain ⟨g1, hs, he⟩ := parseDecls_not_struct file.Decls { g with PackageName := file.Name }
      t more h ht
    exact ⟨g1, by rw [parseAst_eq g file hAst, he], hs.2.2.1, hs.2.1⟩

/-- C6. For a struct declaration that is the only declaration of the requested
name, whose embedded fields are type names as the grammar has them (no function
type), `parseAst` (run on a generator with an empty field collection) fails with
the empty-structure error if and only if the field declarations carry no names
in total; and whenever `parseAst` returns, the error is the empty-structure
error exactly when the field extraction yielded zero entries, which is exactly
when the declarations carry no names. -/
theorem parseAst_empty_struct (g : Generator) (file : File) (fields : List Field)
    (hAst : g.Ast = some file) (hFresh : g.Fields = [])
    (hdecl : namedTypes g.TypeName file.Decls = [.structType fields])
    (hemb : ∀ f ∈ fields, f.names = [] → reachesFuncType f.type = false) :
    ((∃ g', parseAst g = some (g', some .emptyStruct)) ↔ fieldNames fields = []) ∧
    (∀ g' err, parseAst g = some (g', err) →
      (err = some .emptyStruct ↔ g'.Fields = []) ∧
      (g'.Fields = [] ↔ fieldNames fields = [])) := by
  obtain ⟨g1, _, _, hF, he⟩ := parseAst_struct g file fields hAst hdecl
  have hret : ∀ g' err, parseAst g = some (g', err) →
      (err = some .emptyStruct ↔ g'.Fields = []) ∧
      (g'.Fields = [] ↔ fieldNames fields = []) := by
    intro g' err h
    rw [he] at h
    cases hp : parseFields g1 fields with
    | none => simp [hp] at h
    | some g2 =>
      simp only [hp, Option.map_some', Option.some.injEq, Prod.mk.injEq] at h
      obtain ⟨rfl, rfl⟩ := h
      have hn := parseFields_fields_nil fields g1 g2 hp
      rw [hF, hFresh] at hn
      refine ⟨?_, by simpa using hn⟩
      by_cases hz : g2.Fields.length = 0
      · simp [hz, List.length_eq_zero.1 hz]
      · have : g2.Fields ≠ [] := fun e => hz (by rw [e]; rfl)
        simp [hz, this]
  refine ⟨⟨fun ⟨g', h⟩ => ?_, fun h => ?_⟩, hret⟩
  · obtain ⟨h1, h2⟩ := hret g' _ h
    exact h2.1 (h1.1 rfl)
  · obtain ⟨g2, hp⟩ := parseFields_total fields g1 fun f hf =>
      hemb f hf ((fieldNames_eq_nil fields).1 h f hf)
    have hn := (parseFields_fields_nil fields g1 g2 hp).2 ⟨by rw [hF, hFresh], h⟩
    exact ⟨g2, by rw [he, hp]; simp [hn]⟩

/-- C5, witness: the file `package p; type ID int`, where the requested type
`ID` is not a struct. -/
theorem parseAst_lookup_errors_witness :
    ∃ g', parseAst (analysisOf fileNotStruct "ID") = some (g', some (.notAStruct "ID")) ∧
      g'.Fields = [] ∧ g'.NeededImports = [] :=
  (parseAst_lookup_errors (analysisOf fileNotStruct "ID") fileNotStruct rfl).2.2
    (.ident "int") [] rfl rfl

/-- C6, witness: the file `package p; type Wrapper struct { Base; *Mixin }`,
whose struct has embedded fields only. -/
theorem parseAst_empty_struct_witness :
    (∃ g', parseAst (analysisOf fileEmbedded "Wrapper") = some (g', some .emptyStruct)) ∧
      fieldNames fieldsEmbedded = [] :=
  ⟨(parseAst_empty_struct (analysisOf fileEmbedded "Wrapper") fileEmbedded fieldsEmbedded
    rfl rfl rfl (by decide)).1.2 rfl, rfl⟩

/-- C7. For every input on which parsing fails (`getAst` returns an error) or
the analysis fails (`parseAst` returns an error: type not found, not a struct,
empty struct), `Generate` returns that error and makes no call to the file
system: `save` is not invoked, no output file is created or truncated. -/
theorem Generate_failure_skips_sink (env : Env) (g g1 : Generator) (e : GenError)
    (hfail : getAst env g = (g1, some e) ∨
      ∃ g0, getAst env g = (g0, none) ∧ parseAst g0 = some (g1, some e)) :
    Generate env g = some (g1, some e, []) := by
  rcases hfail with h | ⟨g0, h1, h2⟩
  · simp [Generate, h]
  · simp [Generate, h1, h2]

/-- C7, witness: `Generate` on the file `package p; type Wrapper struct { Base; *Mixin }`
returns the empty-structure error without a call to the file system. -/
theorem Generate_failure_skips_sink_witness :
    ∃ g1, Generate (envOf fileEmbedded) (NewGenerator "user.go" "Wrapper" "builder.go") =
      some (g1, some .emptyStruct, []) :=
  ⟨_, Generate_failure_skips_sink (envOf fileEmbedded)
    (NewGenerator "user.go" "Wrapper" "builder.go") _ .emptyStruct (Or.inr ⟨_, rfl, rfl⟩)⟩

/-- C8. For all identifiers `ns` and `T`, `getFieldTypeString` on the type
expression pointer-to-`ns.T` returns exactly the text `*ns.T`, and afterwards
`ns` is in the referenced-namespace list `NeededImports` (it is appended). -/
theorem pointer_to_qualified_text (g : Generator) (ns T : String) :
    ∃ g', getFieldTypeString g (.starExpr (.selectorExpr (.ident ns) T)) =
        some ("*" ++ ns ++ "." ++ T, g') ∧
      g'.NeededImports = g.NeededImports ++ [ns] ∧ ns ∈ g'.NeededImports :=
  ⟨{ g with NeededImports := g.NeededImports ++ [ns] },
    by simp [getFieldTypeString, String.append_assoc], rfl, by simp⟩

/-- C9, the code at the failing input. The function type `func() int` has one
result, without a name; `formatFuncTypeString` returns `func(  ) ( int)`, with
the return section in parentheses: the item of the result is `" " + "int"`, so
the test `strings.Contains(returnItemsString, " ")` holds. -/
theorem single_unnamed_result_parenthesized :
    formatFuncTypeString (NewGenerator "user.go" "User" "builder.go") []
        (some [.mk [] (.ident "int")]) = some "func(  ) ( int)" ∧
      funcTypeText [] [" int"] = "func(  ) ( int)" := by
  decide

/-- C10, counterexample. For `func(int, string) (bool, error)` the reconstructed
text is not `func(int, string) (bool, error)`. -/
theorem two_results_text_spacing :
    formatFuncTypeString (NewGenerator "user.go" "User" "builder.go")
        [.mk [] (.ident "int"), .mk [] (.ident "string")]
        (some [.mk [] (.ident "bool"), .mk [] (.ident "error")]) =
        some "func(  int,  string ) ( bool,  error)" ∧
      formatFuncTypeString (NewGenerator "user.go" "User" "builder.go")
        [.mk [] (.ident "int"), .mk [] (.ident "string")]
        (some [.mk [] (.ident "bool"), .mk [] (.ident "error")]) ≠
        some "func(int, string) (bool, error)" := by
  decide

/-- C10, amended. For every function type with two unnamed parameters of plain
types `T1`, `T2` and two unnamed return values of plain types `R1`, `R2`, the
reconstructed text is `func(  T1,  T2 ) ( R1,  R2)`: `func(` followed by the
parameter list, `)`, and the return section wrapped in parentheses, where every
unnamed item starts with a blank (its empty name list, then the blank before the
type) and the four parts are joined by one blank each. -/
theorem two_params_two_results_text (g : Generator) (T1 T2 R1 R2 : String) :
    formatFuncTypeString g [.mk [] (.ident T1), .mk [] (.ident T2)]
        (some [.mk [] (.ident R1), .mk [] (.ident R2)]) =
      some ("func(  " ++ T1 ++ ",  " ++ T2 ++ " ) ( " ++ R1 ++ ",  " ++ R2 ++ ")") := by
  simp only [formatFuncTypeString, fieldItems, getFieldTypeString, funcTypeText, Join,
    getFieldNames_eq, Field.names, List.length_cons, List.length_nil]
  simp only [Option.some.injEq]
  apply String.ext
  simp [String.append_assoc]

/-- C11. For every successful emission (a run of `Generate` on a new generator
whose parser returns a file with a package name, whose analysis returns no
error, and whose `range` visits every map entry once), the generated text, the
one handed to the output sink, consists, in this order, of: the package clause
`package <pkg>` with the package name of the source file; the import clauses,
one line `import <clause>` for each referenced namespace found in the import
table; the builder type `<T>Builder` holding `instance *<T>`; the constructor
`<T>Build`; one setter per entry of the field collection, in the order in which
the run visits it (named by the caser, its parameter named as the field with
the field's reconstructed type, assigning `b.instance.<field> = <field>` and
returning the builder); the accessor `P()` returning `*<T>`; and last the
accessor `V()` returning `<T>`. Each part other than the setters occurs once.
The import table holds the imports of the file; and when the struct is the only
declaration of the type, with field types as the parser builds them, the
referenced namespaces are those of its field declarations and, for uniquely
named fields, the field collection holds each field with the reconstructed text
of its type. -/
theorem generated_text_sections (env : Env) (sourceFilePath typeName outputFileName : String)
    (file : File) (g' : Generator)
    (hvalid : env.Valid) (hparse : env.ParseFile sourceFilePath = .ok file)
    (hname : file.Name ≠ "")
    (hok : parseAst { NewGenerator sourceFilePath typeName outputFileName with
      Ast := some file } = some (g', none)) :
    ∃ text : String,
      text =
        "package " ++ file.Name ++ "\n\n" ++
        String.join ((g'.NeededImports.filterMap fun ns =>
          mapLookup g'.ParsedImports ns).map fun clause => "import " ++ clause ++ "\n") ++
        ("\ntype " ++ (typeName ++ "Builder") ++ " struct \x7b\n\tinstance *" ++ typeName ++
          "\n\x7d\n\t\t\nfunc " ++ typeName ++ "Build() *" ++ (typeName ++ "Builder") ++
          " \x7b\n\treturn &" ++ (typeName ++ "Builder") ++ " \x7b\n\t\tinstance: &" ++
          typeName ++ "\x7b\x7d,\n\t\x7d\n\x7d") ++
        String.join ((env.rangeOrder g'.Fields).map fun field =>
          "\nfunc (b *" ++ (typeName ++ "Builder") ++ ") " ++ env.caser field.1 ++ " (" ++
            field.1 ++ " " ++ field.2 ++ ") *" ++ (typeName ++ "Builder") ++
            " \x7b\n\tb.instance." ++ field.1 ++ " = " ++ field.1 ++
            "\n\treturn b\n\x7d\n") ++
        ("\nfunc (b *" ++ (typeName ++ "Builder") ++ ") P() *" ++ typeName ++
          " \x7b\n\treturn b.instance\n\x7d\n\t") ++
        ("\nfunc (b *" ++ (typeName ++ "Builder") ++ ") V() " ++ typeName ++
          " \x7b\n\treturn *b.instance\n\x7d\n") ∧
      Generate env (NewGenerator sourceFilePath typeName outputFileName) =
        some (g', (save env (NewGenerator sourceFilePath typeName outputFileName) text).1,
          (save env (NewGenerator sourceFilePath typeName outputFileName) text).2) ∧
      (env.rangeOrder g'.Fields).Perm g'.Fields ∧
      g'.ParsedImports = tableOf (importsBefore typeName file.Decls) ∧
      ∀ fields : List Field, namedTypes typeName file.Decls = [.structType fields] →
        (∀ f ∈ fields, HeadOk f.type = true) →
          g'.NeededImports = referenced fields ∧
          ((fieldNames fields).Nodup → g'.Fields = fieldPairs fields) := by
  obtain ⟨hT, hP⟩ := parseAst_names _ g' file none rfl hok
  have hT' : g'.TypeName = typeName := hT
  have hgen := Generate_of_parseAst env (NewGenerator sourceFilePath typeName outputFileName)
    g' file hparse hname hok
  have htext := generateOutput_text env.caser (env.rangeOrder g'.Fields) g'
  rw [hT', hP] at htext
  refine ⟨_, rfl, ?_, hvalid _, (parseAst_table _ g' file none rfl hok).1, ?_⟩
  · rw [hgen, htext]
    rfl
  · intro fields hdecl hwf
    obtain ⟨g1, hN, hF, hp⟩ := parseAst_struct_ok _ g' file fields rfl hdecl hok
    have hN' : g1.NeededImports = [] := hN
    have hF' : g1.Fields = [] := hF
    constructor
    · rw [parseFields_needed fields g1 g' hwf hp, hN']
      rfl
    · intro hnames
      rw [parseFields_fields fields g1 g' hp (by rw [hF']; simpa [mapKeys] using hnames), hF']
      rfl

/-- C11, witness: the run on the source file
`package event; import "time"; type Event struct { start time.Time; stop *time.Time }`. -/
theorem generated_text_sections_witness :
    ∃ g' text,
      Generate (envOf fileTime) (NewGenerator "user.go" "Event" "builder.go") =
        some (g', (save (envOf fileTime) (NewGenerator "user.go" "Event" "builder.go") text).1,
          (save (envOf fileTime) (NewGenerator "user.go" "Event" "builder.go") text).2) ∧
      g'.NeededImports = referenced fieldsTime ∧ g'.Fields = fieldPairs fieldsTime :=
  let ⟨text, _, h2, _, _, h5⟩ := generated_text_sections (envOf fileTime) "user.go" "Event"
    "builder.go" fileTime _ (fun m => List.Perm.refl m) rfl (by decide) rfl
  ⟨_, text, h2, (h5 fieldsTime rfl (by decide)).1, (h5 fieldsTime rfl (by decide)).2 (by decide)⟩

/-- C12, counterexample. The source file
`package logx; type Log struct { out *os.File }` imports `os` with a raw string
literal (the path between backquotes, no alias). The import table has the one
key made of the literal with its backquotes, so the key `os`, the path text with
its surrounding quotes stripped, has no entry, and no import clause is emitted
for the referenced namespace `os`. And in the source file
`package p; import . "fmt"; import . "strings"; type T struct { x int }` the
first import has the explicit alias `.` and the path literal `"fmt"`, and the
table maps the key `.` to the clause text of the second import. -/
theorem raw_import_keeps_backquotes :
    (∃ g', parseAst (analysisOf fileRawImport "Log") = some (g', none) ∧
      g'.ParsedImports = [("`os`", "`os`")] ∧
      mapLookup g'.ParsedImports "os" = none ∧
      g'.NeededImports = ["os"] ∧
      importClauses g' = []) ∧
    ∃ g', parseAst (analysisOf fileDotImports "T") = some (g', none) ∧
      mapLookup g'.ParsedImports "." = some ". \"strings\"" ∧
      mapLookup g'.ParsedImports "." ≠ some ". \"fmt\"" :=
  ⟨⟨_, rfl, by decide, by decide, by decide, by decide⟩, _, rfl, by decide, by decide⟩

/-- C12, amended. For every import declaration processed by `parseAst` (an import
of the file before the declaration of the requested type) that no later import
overwrites (a later import with the same key takes its place): if it has
an explicit alias `a` (not empty, not `_`, an identifier and so without a quote
character) and the path literal `p`, the import table maps the key `a` to the
clause text `a p`; if it has no alias, the table maps the path text without its
leading and trailing double-quote characters to the bare path literal `p`. So
for an interpreted literal `"body"` the key is `body`, and for a raw literal,
written between backquotes, the key is the literal with its backquotes. -/
theorem import_table_entries (g g' : Generator) (file : File) (err : Option GenError)
    (hAst : g.Ast = some file) (hok : parseAst g = some (g', err))
    (pre post : List ImportSpec) (spec : ImportSpec) (p : String)
    (himports : importsBefore g.TypeName file.Decls = pre ++ spec :: post)
    (hlast : ∀ s ∈ post, importKey s ≠ importKey spec)
    (hpath : spec.Path = some p) :
    (∀ a, spec.Name = some a → a ≠ "" → a ≠ "_" → '\"' ∉ a.data →
      mapLookup g'.ParsedImports a = some (a ++ " " ++ p)) ∧
    (spec.Name = none → mapLookup g'.ParsedImports (Trim p "\"") = some p) ∧
    (∀ body, spec.Name = none → p = "\"" ++ body ++ "\"" → '\"' ∉ body.data →
      mapLookup g'.ParsedImports body = some p) ∧
    (∀ body, spec.Name = none → p = "`" ++ body ++ "`" →
      mapLookup g'.ParsedImports ("`" ++ body ++ "`") = some p) := by
  have hl := mapLookup_foldl_last pre post spec g.ParsedImports hlast
  rw [← himports, ← (parseAst_table g g' file err hAst hok).1] at hl
  obtain ⟨name, path⟩ := spec
  simp only at hpath
  subst hpath
  have hnone : name = none → mapLookup g'.ParsedImports (Trim p "\"") = some p := by
    intro hn
    subst hn
    simpa [importKey, importClause, explicitAlias] using hl
  refine ⟨?_, hnone, ?_, ?_⟩
  · intro a hn ha hblank hident
    simp only at hn
    subst hn
    simpa [importKey, importClause, explicitAlias, ha, hblank, Trim_quote_free a hident]
      using hl
  · intro body hn hp hbody
    have := hnone hn
    rw [hp, Trim_quoted body hbody] at this
    rw [hp]
    exact this
  · intro body hn hp
    have := hnone hn
    rw [hp, Trim_raw body] at this
    rw [hp]
    exact this

/-- C12, witness: the import `str "strings"` of the source file
`package p; import ( str "strings"; "net/http"; _ "embed" ); type T struct { x int }`. -/
theorem import_table_entries_witness :
    ∃ g', parseAst (analysisOf fileThreeImports "T") = some (g', none) ∧
      mapLookup g'.ParsedImports "str" = some ("str" ++ " " ++ "\"strings\"") :=
  ⟨_, rfl, (import_table_entries (analysisOf fileThreeImports "T") _ fileThreeImports none
    rfl rfl [] [⟨none, some "\"net/http\""⟩, ⟨some "_", some "\"embed\""⟩]
    ⟨some "str", some "\"strings\""⟩ "\"strings\"" rfl (by decide) rfl).1 "str" rfl
    (by decide) (by decide) (by decide)⟩

/-- C13, counterexample. Two runs on the same source file
`package event; import "time"; type Event struct { start time.Time; stop *time.Time }`,
with the same type name and output name, in which `range` visits the two
entries of the field map in opposite orders (each visits every entry once),
hand different texts to the sink. -/
theorem setter_order_differs_between_runs :
    (envOf fileTime).Valid ∧ (envReversed fileTime).Valid ∧
    (envOf fileTime).ParseFile "user.go" = (envReversed fileTime).ParseFile "user.go" ∧
    generatedText (envOf fileTime) (NewGenerator "user.go" "Event" "builder.go") ≠
      generatedText (envReversed fileTime) (NewGenerator "user.go" "Event" "builder.go") :=
  ⟨fun m => List.Perm.refl m, fun m => List.reverse_perm m, rfl, by decide!⟩

/-- C13, amended. For every fixed input file content, type name and output name,
two runs of the analysis-and-emission pipeline (same parser result, same caser,
each run visiting every map entry once) on which the analysis succeeds hand to
the sink texts that are byte-identical except for the order of the setter
methods: each text is the same head (package clause, import clauses, builder
type and constructor), then the setter methods of the fields in the order in
which that run visits the field collection, then the same tail (the two
accessors); the two orders are permutations of each other. The texts are
byte-identical when both runs visit the field collection in the same order. -/
theorem runs_differ_only_in_setter_order (env1 env2 : Env) (g g' : Generator) (file : File)
    (hv1 : env1.Valid) (hv2 : env2.Valid)
    (hp1 : env1.ParseFile g.SourceFile = .ok file)
    (hp2 : env2.ParseFile g.SourceFile = .ok file)
    (hname : file.Name ≠ "") (hcaser : env1.caser = env2.caser)
    (hok : parseAst { g with Ast := some file } = some (g', none)) :
    ∃ head tail text1 text2 : String,
      head = "package " ++ file.Name ++ "\n\n" ++
        String.join ((importClauses g').map fun c => importLine c.2) ++
        builderDecl (g.TypeName ++ "Builder") g.TypeName ∧
      tail = accessorP (g.TypeName ++ "Builder") g.TypeName ++
        accessorV (g.TypeName ++ "Builder") g.TypeName ∧
      text1 = head ++ String.join ((env1.rangeOrder g'.Fields).map
        (setterMethod env1.caser (g.TypeName ++ "Builder"))) ++ tail ∧
      text2 = head ++ String.join ((env2.rangeOrder g'.Fields).map
        (setterMethod env1.caser (g.TypeName ++ "Builder"))) ++ tail ∧
      Generate env1 g = some (g', (save env1 g text1).1, (save env1 g text1).2) ∧
      Generate env2 g = some (g', (save env2 g text2).1, (save env2 g text2).2) ∧
      (env1.rangeOrder g'.Fields).Perm (env2.rangeOrder g'.Fields) ∧
      (env1.rangeOrder g'.Fields = env2.rangeOrder g'.Fields → text1 = text2) := by
  obtain ⟨hT, hP⟩ := parseAst_names _ g' file none rfl hok
  have hT' : g'.TypeName = g.TypeName := hT
  have h1 := Generate_of_parseAst env1 g g' file hp1 hname hok
  have h2 := Generate_of_parseAst env2 g g' file hp2 hname hok
  have t1 := generateOutput_sections env1.caser (env1.rangeOrder g'.Fields) g'
  have t2 := generateOutput_sections env2.caser (env2.rangeOrder g'.Fields) g'
  rw [hT', hP] at t1 t2
  rw [← hcaser] at t2
  refine ⟨_, _, _, _, rfl, rfl, rfl, rfl, ?_, ?_,
    (hv1 g'.Fields).trans (hv2 g'.Fields).symm, fun ho => by rw [ho]⟩
  · rw [h1, t1]
    simp only [String.append_assoc]
  · rw [h2, ← hcaser, t2]
    simp only [String.append_assoc]

/-- C13, witness: two runs on the file
`package event; import "time"; type Event struct { start time.Time; stop *time.Time }`
that visit the field collection in opposite orders. -/
theorem runs_differ_only_in_setter_order_witness :
    ∃ g' text1 text2,
      Generate (envOf fileTime) (NewGenerator "user.go" "Event" "builder.go") =
        some (g', (save (envOf fileTime) (NewGenerator "user.go" "Event" "builder.go") text1).1,
          (save (envOf fileTime) (NewGenerator "user.go" "Event" "builder.go") text1).2) ∧
      Generate (envReversed fileTime) (NewGenerator "user.go" "Event" "builder.go") =
        some (g',
          (save (envReversed fileTime) (NewGenerator "user.go" "Event" "builder.go") text2).1,
          (save (envReversed fileTime) (NewGenerator "user.go" "Event" "builder.go") text2).2) ∧
      ((envOf fileTime).rangeOrder g'.Fields).Perm ((envReversed fileTime).rangeOrder g'.Fields) :=
  let ⟨_, _, text1, text2, _, _, _, _, h5, h6, h7, _⟩ :=
    runs_differ_only_in_setter_order (envOf fileTime) (envReversed fileTime)
      (NewGenerator "user.go" "Event" "builder.go") _ fileTime (fun m => List.Perm.refl m)
      (fun m => List.reverse_perm m) rfl rfl (by decide) rfl rfl
  ⟨_, text1, text2, h5, h6, h7⟩

/-- C14, counterexample. The struct
`type Event struct { start time.Time; stop *time.Time }` has uniquely named
fields, declared in the order `start`, `stop`; in a run in which `range` visits
the field map in the other order (every entry once), the generated text has the
setter `Stop` before the setter `Start`. -/
theorem setters_in_reverse_order :
    (envReversed fileTime).Valid ∧
    fieldNames fieldsTime = ["start", "stop"] ∧
    generatedText (envReversed fileTime) (NewGenerator "user.go" "Event" "builder.go") =
      some ("package event\n\nimport \"time\"\nimport \"time\"\n\n" ++
        "type EventBuilder struct \x7b\n\tinstance *Event\n\x7d\n\t\t\n" ++
        "func EventBuild() *EventBuilder \x7b\n\treturn &EventBuilder \x7b\n" ++
        "\t\tinstance: &Event\x7b\x7d,\n\t\x7d\n\x7d\n" ++
        "func (b *EventBuilder) Stop (stop *time.Time) *EventBuilder \x7b\n" ++
        "\tb.instance.stop = stop\n\treturn b\n\x7d\n\n" ++
        "func (b *EventBuilder) Start (start time.Time) *EventBuilder \x7b\n" ++
        "\tb.instance.start = start\n\treturn b\n\x7d\n\n" ++
        "func (b *EventBuilder) P() *Event \x7b\n\treturn b.instance\n\x7d\n" ++
        "\t\nfunc (b *EventBuilder) V() Event \x7b\n\treturn *b.instance\n" ++
        "\x7d\n") :=
  ⟨fun m => List.reverse_perm m, by decide, by decide!⟩

/-- C14, amended. For every struct with uniquely named fields (the only
declaration of the requested type, analysed by a generator with an empty field
collection), the setter methods appear in the generated text in the order in
which `range` visits the field collection in that run: one setter for each field
with the field's reconstructed type, in an order that is a permutation of the
source declaration order and that the language does not fix. They are in
declaration order exactly when the run visits the entries in that order. -/
theorem setters_follow_range_order (caser : String → String) (g g' : Generator)
    (file : File) (fields : List Field) (hAst : g.Ast = some file) (hFresh : g.Fields = [])
    (hdecl : namedTypes g.TypeName file.Decls = [.structType fields])
    (hnames : (fieldNames fields).Nodup)
    (hok : parseAst g = some (g', none))
    (order : StrMap) (horder : RangeOrder order g') :
    (∃ before after, generateOutput caser order g' =
      before ++ String.join (order.map (setterMethod caser (g'.TypeName ++ "Builder"))) ++
        after) ∧
    (setters caser order).map (fun s => s.2.1) = order.map Prod.fst ∧
    (order.map Prod.fst).Perm (fieldNames fields) ∧
    (∀ entry ∈ order, mapLookup g'.Fields entry.1 = some entry.2) ∧
    ((setters caser order).map (fun s => s.2.1) = fieldNames fields ↔
      order.map Prod.fst = fieldNames fields) := by
  obtain ⟨g1, _, hF, hp⟩ := parseAst_struct_ok g g' file fields hAst hdecl hok
  have hkeys : mapKeys g'.Fields = fieldNames fields := by
    have := parseFields_keys fields g1 g' hp (by rw [hF, hFresh]; simpa [mapKeys] using hnames)
    rw [this, hF, hFresh]
    simp [mapKeys]
  have h1 : (setters caser order).map (fun s => s.2.1) = order.map Prod.fst := by
    simp [setters, Function.comp_def]
  refine ⟨⟨"package " ++ g'.PackageName ++ "\n\n" ++
      String.join ((importClauses g').map fun c => importLine c.2) ++
      builderDecl (g'.TypeName ++ "Builder") g'.TypeName,
    accessorP (g'.TypeName ++ "Builder") g'.TypeName ++
      accessorV (g'.TypeName ++ "Builder") g'.TypeName,
    (generateOutput_sections caser order g').trans ?_⟩, h1, ?_, ?_, by rw [h1]⟩
  · simp only [String.append_assoc]
  · rw [← hkeys]
    exact List.Perm.map _ horder
  · intro entry he
    have hnd : (mapKeys g'.Fields).Nodup := by rw [hkeys]; exact hnames
    exact mapLookup_of_mem g'.Fields hnd entry (horder.mem_iff.1 he)

/-- C14, witness: the struct `Event` in a run that visits the field collection
in declaration order. -/
theorem setters_follow_range_order_witness :
    ∃ g', parseAst (analysisOf fileTime "Event") = some (g', none) ∧
      (setters titleCaser g'.Fields).map (fun s => s.2.1) = g'.Fields.map Prod.fst ∧
      (g'.Fields.map Prod.fst).Perm (fieldNames fieldsTime) :=
  ⟨_, rfl,
    (setters_follow_range_order titleCaser (analysisOf fileTime "Event") _ fileTime fieldsTime
      rfl rfl rfl (by decide) rfl _ (List.Perm.refl _)).2.1,
    (setters_follow_range_order titleCaser (analysisOf fileTime "Event") _ fileTime fieldsTime
      rfl rfl rfl (by decide) rfl _ (List.Perm.refl _)).2.2.1⟩

/-- C15, counterexample. After the import `import _ "foo"` the import table has
the one entry `foo` with the clause text `"foo"`; the key `_` has no entry and no
clause text is `_ "foo"`. -/
theorem blank_import_not_under_blank_key :
    (recordImport (NewGenerator "user.go" "T" "builder.go")
        ⟨some "_", some "\"foo\""⟩).ParsedImports = [("foo", "\"foo\"")] ∧
    mapLookup (recordImport (NewGenerator "user.go" "T" "builder.go")
        ⟨some "_", some "\"foo\""⟩).ParsedImports "_" = none ∧
    ∃ g', parseAst (analysisOf fileBlank "T") = some (g', none) ∧
      mapLookup g'.ParsedImports "_" = none ∧
      mapLookup g'.ParsedImports "foo" = some "\"foo\"" :=
  ⟨by decide, by decide, _, rfl, by decide, by decide⟩

/-- C15, amended. For every import declared with the blank alias `_` and the
path literal `p`, the import table built by `parseAst` records it under the key
`p` without its leading and trailing `"` (for the literal `"body"`: under the key
`body`) with the bare clause text `p`, unless a later import has the same key;
and under no other key: the entry of every other key is what the other imports
of the file make it, so that the literal key `_` has no entry when the table was
empty before and no other import has that key. -/
theorem blank_import_table_entries (g g' : Generator) (file : File) (err : Option GenError)
    (hAst : g.Ast = some file) (hok : parseAst g = some (g', err))
    (pre post : List ImportSpec) (p : String)
    (himports : importsBefore g.TypeName file.Decls = pre ++ ⟨some "_", some p⟩ :: post) :
    ((∀ s ∈ post, importKey s ≠ Trim p "\"") →
      mapLookup g'.ParsedImports (Trim p "\"") = some p) ∧
    (∀ body, p = "\"" ++ body ++ "\"" → '\"' ∉ body.data → (∀ s ∈ post, importKey s ≠ body) →
      mapLookup g'.ParsedImports body = some p) ∧
    (∀ k, k ≠ Trim p "\"" →
      mapLookup g'.ParsedImports k =
        mapLookup ((pre ++ post).foldl
          (fun m s => mapStore m (importKey s) (importClause s)) g.ParsedImports) k) ∧
    (g.ParsedImports = [] → Trim p "\"" ≠ "_" → (∀ s ∈ pre ++ post, importKey s ≠ "_") →
      mapLookup g'.ParsedImports "_" = none) := by
  have hk : importKey ⟨some "_", some p⟩ = Trim p "\"" := by
    simp [importKey, explicitAlias]
  have hc : importClause ⟨some "_", some p⟩ = p := by
    simp [importClause, explicitAlias]
  have ht := (parseAst_table g g' file err hAst hok).1
  rw [himports] at ht
  have hkey : (∀ s ∈ post, importKey s ≠ Trim p "\"") →
      mapLookup g'.ParsedImports (Trim p "\"") = some p := by
    intro hlast
    rw [ht, ← hk, mapLookup_foldl_last pre post ⟨some "_", some p⟩ g.ParsedImports
      (fun s hs => by rw [hk]; exact hlast s hs), hc]
  have hother : ∀ k, k ≠ Trim p "\"" →
      mapLookup g'.ParsedImports k =
        mapLookup ((pre ++ post).foldl
          (fun m s => mapStore m (importKey s) (importClause s)) g.ParsedImports) k := by
    intro k hne
    rw [ht]
    exact mapLookup_foldl_without pre post ⟨some "_", some p⟩ g.ParsedImports k
      (by rw [hk]; exact hne)
  refine ⟨hkey, ?_, hother, ?_⟩
  · intro body hp hbody hlast
    have hb : Trim p "\"" = body := by rw [hp, Trim_quoted body hbody]
    have := hkey (by rw [hb]; exact hlast)
    rw [hb] at this
    exact this
  · intro hempty hne hnone
    rw [hother "_" (fun e => hne e.symm), mapLookup_foldl_other (pre ++ post) "_" _ hnone,
      hempty]
    rfl

/-- C15, witness: the import `_ "embed"` of the source file
`package p; import ( str "strings"; "net/http"; _ "embed" ); type T struct { x int }`. -/
theorem blank_import_table_entries_witness :
    ∃ g', parseAst (analysisOf fileThreeImports "T") = some (g', none) ∧
      mapLookup g'.ParsedImports "embed" = some "\"embed\"" ∧
      mapLookup g'.ParsedImports "_" = none :=
  have h := blank_import_table_entries (analysisOf fileThreeImports "T") _ fileThreeImports
    none rfl rfl [⟨some "str", some "\"strings\""⟩, ⟨none, some "\"net/http\""⟩] []
    "\"embed\"" rfl
  ⟨_, rfl, h.2.1 "embed" (by decide) (by decide) (by simp), h.2.2.2 rfl (by decide) (by decide)⟩

/-- C16, the code at the failing input. For every function type without results
(the pointer `Results` is nil, as for `func()` and `func(x int)`),
`formatFuncTypeString` and `getFieldTypeString` do not return: the run ends in
the nil dereference `t.Results.List`. So `Generate` on the source file
`package p; type Server struct { onClose func() }` panics, whereas the function
type `func() ()`, whose result list is present and empty, gives `func(  ) `. -/
theorem func_without_results_panics :
    (∀ (g : Generator) (params : List Field),
      formatFuncTypeString g params none = none ∧
      getFieldTypeString g (.funcType params none) = none) ∧
    (Generate (envOf fileCallback) (NewGenerator "user.go" "Server" "builder.go")).isNone
      = true ∧
    formatFuncTypeString (NewGenerator "user.go" "Server" "builder.go") [] (some []) =
      some "func(  ) " := by
  refine ⟨fun g params => ?_, by decide!, by decide⟩
  have h : formatFuncTypeString g params none = none := by
    unfold formatFuncTypeString
    cases fieldItems g params <;> rfl
  exact ⟨h, by rw [getFieldTypeString_funcType, h]; rfl⟩

/-- C17, the code at the failing input. After `parseFieldData` on the field
`handler func(c http.Client) error` the type text is recorded with the qualified
parameter type `http.Client`, and the referenced-namespace list is still empty;
after `parseFieldData` on the field `client http.Client` the list holds `http`. -/
theorem namespace_in_func_type_dropped :
    (parseFieldData (NewGenerator "user.go" "User" "builder.go") fieldHandler).map
        (fun g => (g.Fields, g.NeededImports)) =
      some ([("handler", "func( c http.Client ) ( error)")], []) ∧
    (parseFieldData (NewGenerator "user.go" "User" "builder.go") fieldClient).map
        (fun g => (g.Fields, g.NeededImports)) =
      some ([("client", "http.Client")], ["http"]) := by
  decide

/-- C18. For every function type on which the reconstruction returns (no
function type without results in it), the text of `formatFuncTypeString` is
`func(`, the parameter-list text, `)` and the return section, joined by blanks,
where the parameter-list text is the parameter groups joined by `, ` and each
group is its names joined by `,` (no space), then a single space, then the
reconstructed type text of the group. -/
theorem func_params_text (g : Generator) (params : List Field)
    (results : Option (List Field))
    (hok : reconstructs (.funcType params results) = true) :
    ∃ paramItems returnSection,
      formatFuncTypeString g params results =
        some (Join ["func(", Join paramItems ", ", ")", returnSection] " ") ∧
      List.Forall₂ (fun field item => ∃ typeText,
        (getFieldTypeString g field.type).map Prod.fst = some typeText ∧
        item = Join field.names "," ++ " " ++ typeText) params paramItems := by
  cases results with
  | none => simp [reconstructs] at hok
  | some rs =>
    simp only [reconstructs, Bool.and_eq_true] at hok
    have h1 := fieldItems_isSome params g
    rw [hok.1] at h1
    obtain ⟨p, hp⟩ := Option.isSome_iff_exists.1 h1
    obtain ⟨items, g1⟩ := p
    have h2 := fieldItems_isSome rs g1
    rw [hok.2] at h2
    obtain ⟨q, hq⟩ := Option.isSome_iff_exists.1 h2
    obtain ⟨rets, g2⟩ := q
    refine ⟨items,
      if rets.length > 1 || Contains (Join rets ", ") " " then "(" ++ Join rets ", " ++ ")"
      else Join rets ", ", ?_, fieldItems_items params g g g1 items hp⟩
    simp only [formatFuncTypeString, hp, hq, funcTypeText]

/-- C18, witness: the function type `func(a,b int, c http.Client) error`. -/
theorem func_params_text_witness :
    formatFuncTypeString (NewGenerator "user.go" "User" "builder.go") paramsMixed
        (some [.mk [] (.ident "error")]) =
      some "func( a,b int, c http.Client ) ( error)" ∧
    ∃ paramItems returnSection,
      formatFuncTypeString (NewGenerator "user.go" "User" "builder.go") paramsMixed
          (some [.mk [] (.ident "error")]) =
        some (Join ["func(", Join paramItems ", ", ")", returnSection] " ") ∧
      List.Forall₂ (fun field item => ∃ typeText,
        (getFieldTypeString (NewGenerator "user.go" "User" "builder.go") field.type).map
            Prod.fst = some typeText ∧
        item = Join field.names "," ++ " " ++ typeText) paramsMixed paramItems :=
  ⟨by decide, func_params_text (NewGenerator "user.go" "User" "builder.go") paramsMixed
    (some [.mk [] (.ident "error")]) (by decide)⟩

/-- C19. For every type expression whose top-level node kind is not pointer,
qualified identifier, plain identifier or function type, `getFieldTypeString`
returns the empty text, does not fail, and leaves the generator, with its
referenced-namespace list, unchanged. -/
theorem unsupported_kind_empty_text (g : Generator) (e : Expr)
    (h : e.recognised = false) : getFieldTypeString g e = some ("", g) := by
  cases e with
  | starExpr _ => simp [Expr.recognised] at h
  | selectorExpr _ _ => simp [Expr.recognised] at h
  | funcType _ _ => simp [Expr.recognised] at h
  | ident _ => simp [Expr.recognised] at h
  | structType _ => rw [getFieldTypeString]
  | otherExpr => rw [getFieldTypeString]

/-- C19, witness: a node of another kind, such as the slice type `[]byte`. -/
theorem unsupported_kind_empty_text_witness :
    getFieldTypeString (NewGenerator "user.go" "User" "builder.go") .otherExpr =
      some ("", NewGenerator "user.go" "User" "builder.go") :=
  unsupported_kind_empty_text (NewGenerator "user.go" "User" "builder.go") .otherExpr rfl

/-- C20. For every field declaration with the names `n1..nk` and a type
expression `T` on which the reconstruction returns, `parseFieldData` returns, and
afterwards the field collection maps each `ni` to the same reconstructed type
text of `T`, and the entries for names not among `n1..nk` are unchanged. -/
theorem parseFieldData_maps_names (g : Generator) (field : Field)
    (hok : reconstructs field.type = true) :
    ∃ typeText g', parseFieldData g field = some g' ∧
      (getFieldTypeString g field.type).map Prod.fst = some typeText ∧
      (∀ name ∈ field.names, mapLookup g'.Fields name = some typeText) ∧
      (∀ name, name ∉ field.names → mapLookup g'.Fields name = mapLookup g.Fields name) := by
  have h1 := getFieldTypeString_isSome field.type g
  rw [hok] at h1
  obtain ⟨p, hp⟩ := Option.isSome_iff_exists.1 h1
  obtain ⟨t, g1⟩ := p
  obtain ⟨l, hl⟩ := getFieldTypeString_frame _ _ _ _ hp
  refine ⟨t, { g1 with Fields := storeAll g1.Fields field.names t }, ?_, by simp [hp], ?_, ?_⟩
  · rw [parseFieldData_eq, hp]; rfl
  · intro name hn
    simp only [mapLookup_storeAll, hn, if_true]
  · intro name hn
    simp only [mapLookup_storeAll, hn, if_false]
    rw [hl]

/-- C20, witness: the declaration `a, b *time.Time` added to a collection that
holds `id`. -/
theorem parseFieldData_maps_names_witness :
    ∃ g', parseFieldData
        { NewGenerator "user.go" "User" "builder.go" with Fields := [("id", "int")] }
        (.mk ["a", "b"] (.starExpr (.selectorExpr (.ident "time") "Time"))) = some g' ∧
      g'.Fields = [("id", "int"), ("a", "*time.Time"), ("b", "*time.Time")] ∧
      ∃ typeText g'', parseFieldData
          { NewGenerator "user.go" "User" "builder.go" with Fields := [("id", "int")] }
          (.mk ["a", "b"] (.starExpr (.selectorExpr (.ident "time") "Time"))) = some g'' ∧
        (∀ name ∈ ["a", "b"], mapLookup g''.Fields name = some typeText) ∧
        (∀ name, name ∉ ["a", "b"] → mapLookup g''.Fields name =
          mapLookup [("id", "int")] name) :=
  ⟨_, rfl, by decide,
    let ⟨t, g'', h1, _, h3, h4⟩ := parseFieldData_maps_names
      { NewGenerator "user.go" "User" "builder.go" with Fields := [("id", "int")] }
      (.mk ["a", "b"] (.starExpr (.selectorExpr (.ident "time") "Time"))) (by decide)
    ⟨t, g'', h1, h3, h4⟩⟩

end BuilderGen
